import Mathlib

/-!
# k8s-AppController, package `resources`: readiness aggregation, percentage
# thresholds and the persistent-volume-claim resource

A shallow embedding of `resources/common.go` and
`resources/persistentvolumeclaim.go`, followed by the properties proved about it.

Conventions of the embedding
* A Go `error` is a value of `GoError`; a nil error is `none : Option GoError`.
* A Go `(T, error)` result is the pair `T × Option GoError` (Go returns both).
* A Go `map[string]string` is an association list, looked up by first match;
  the nil map is `none`.
* Go strings are Lean strings, read character by character.  The integer parser
  reads bytes; every byte of a non-ASCII character is `>= 0x80`, which the parser
  rejects exactly as it rejects the character itself, so both readings agree.
* Calls to `log.Printf` / `log.Println` write to the process log only and are left out.
  A call to `log.Fatalf` prints and exits the process: the call ends in `Outcome.fatal`.
* The remote system is a state `σ` threaded through the calls of the client; the
  calls a method makes are read off the client `recording c`, which appends each
  call to a list kept beside the remote state.
* A method with a value receiver works on a copy of its receiver; what it assigns to
  a field of the receiver is not seen by the caller.
-/

set_option autoImplicit false

namespace Resources

/-! ## Errors -/

/-- Go error values: `errorString s` is what `errors.New(s)` and `fmt.Errorf` build
(message `s`); `numError` is `*strconv.NumError{Func, Num, Err}`.  Errors of remote
clients are arbitrary values of this type. -/
inductive GoError where
  | errorString (s : String)
  | numError (Func : String) (Num : String) (Err : GoError)
  deriving DecidableEq, Repr

/-- Sentinel `strconv.ErrSyntax`. -/
def ErrSyntax : GoError := GoError.errorString "invalid syntax"

/-- Sentinel `strconv.ErrRange`. -/
def ErrRange : GoError := GoError.errorString "value out of range"

/-- The `Error()` method.  For a `NumError` Go prints
`"strconv." + Func + ": parsing " + strconv.Quote(Num) + ": " + Err.Error()`;
`strconv.Quote` depends on Unicode tables of the standard library and is taken as
the parameter `quote`. -/
def GoError.Error (quote : String → String) : GoError → String
  | GoError.errorString s => s
  | GoError.numError fn num err =>
      "strconv." ++ fn ++ ": parsing " ++ quote num ++ ": " ++ GoError.Error quote err

/-- A Go `map[string]string` value; `none` is the nil map. -/
abbrev StringMap := Option (List (String × String))

/-! ## `interfaces.BaseResource` as seen by `resourceListReady` -/

/-- Modelled from the spec: the interface `interfaces.BaseResource`, declared outside
the two files at hand, as far as `resourceListReady` uses it: the key and the answer
the resource gives to the `Status` call made on it. -/
structure BaseResource where
  Key : String
  Status : StringMap → String × Option GoError

/-- Body of `resourceListReady` (common.go 73-85), returning next to the result the
resources on which `Status` was invoked, in call order. -/
def resourceListReadyRun : List BaseResource → (String × Option GoError) × List BaseResource
  | [] => (("ready", none), [])
  | r :: rest =>
    match r.Status none with
    | (_, some err) => (("error", some err), [r])
    | (status, none) =>
      if status ≠ "ready" then
        (("not ready", some (GoError.errorString ("Resource " ++ r.Key ++ " is not ready"))), [r])
      else
        ((resourceListReadyRun rest).1, r :: (resourceListReadyRun rest).2)

/-- Function `resourceListReady`: the `(string, error)` it returns. -/
def resourceListReady (resources : List BaseResource) : String × Option GoError :=
  (resourceListReadyRun resources).1

/-- The resources on which `resourceListReady` invokes `Status`, in call order. -/
def resourceListReadyCalls (resources : List BaseResource) : List BaseResource :=
  (resourceListReadyRun resources).2

/-! ## `strconv.ParseInt`, as called by `getPercentage`

`strconv` is the Go standard library; the two functions below follow
`strconv/atoi.go` (Go 1.7, the release of the repository's time) for a base between
2 and 36: the repository calls base 10, 32 bits.  The base-0 prefix detection and the
invalid-base branch are not reached by that call and are not modelled.  Later
releases return `maxVal` instead of `1<<64 - 1` beside a range error of `ParseUint`;
`ParseInt` only compares that number with its cutoff, so its results are the same. -/

/-- Largest `uint64`. -/
def maxUint64 : Nat := 2 ^ 64 - 1

/-- Conversion `int64(x)`. -/
def toInt64 (x : Int) : Int := (x + 2 ^ 63) % 2 ^ 64 - 2 ^ 63

/-- Conversion `int32(x)`. -/
def toInt32 (x : Int) : Int := (x + 2 ^ 31) % 2 ^ 32 - 2 ^ 31

/-- The `*strconv.NumError` record. -/
structure NumError where
  Func : String
  Num : String
  Err : GoError
  deriving DecidableEq, Repr

/-- A `*NumError` used as an `error`. -/
def NumError.toError (e : NumError) : GoError := GoError.numError e.Func e.Num e.Err

/-- The digit switch of `ParseUint`: the value `v` of the byte `d`, `none` for the
`default` branch.  Bytes are compared by their code. -/
def digitVal (d : Char) : Option Nat :=
  if '0'.toNat ≤ d.toNat ∧ d.toNat ≤ '9'.toNat then some (d.toNat - '0'.toNat)
  else if 'a'.toNat ≤ d.toNat ∧ d.toNat ≤ 'z'.toNat then some (d.toNat - 'a'.toNat + 10)
  else if 'A'.toNat ≤ d.toNat ∧ d.toNat ≤ 'Z'.toNat then some (d.toNat - 'A'.toNat + 10)
  else none

/-- The `for ; i < len(s); i++` loop of `ParseUint`, from accumulator `n`; the result
is the pair `(n, err)` the function has reached when it leaves the loop. -/
def parseUintLoop (base cutoff maxVal : Nat) : List Char → Nat → Nat × Option GoError
  | [], n => (n, none)
  | d :: ds, n =>
    match digitVal d with
    | none => (0, some ErrSyntax)
    | some v =>
      if v ≥ base then (0, some ErrSyntax)
      else if n ≥ cutoff then (maxUint64, some ErrRange)
      else
        let n' := (n * base) % 2 ^ 64
        let n1 := (n' + v) % 2 ^ 64
        if n1 < n' ∨ n1 > maxVal then (maxUint64, some ErrRange)
        else parseUintLoop base cutoff maxVal ds n1

/-- Function `strconv.ParseUint(s, base, bitSize)` for `2 <= base <= 36`, `bitSize > 0`. -/
def ParseUint (s : String) (base bitSize : Nat) : Nat × Option NumError :=
  if s.length < 1 then (0, some ⟨"ParseUint", s, ErrSyntax⟩)
  else
    let cutoff := maxUint64 / base + 1
    let maxVal := (2 ^ bitSize % 2 ^ 64 + 2 ^ 64 - 1) % 2 ^ 64
    match parseUintLoop base cutoff maxVal s.data 0 with
    | (n, none) => (n, none)
    | (n, some err) => (n, some ⟨"ParseUint", s, err⟩)

/-- The part of `ParseInt` after the early return for a syntax error: the range
checks against `cutoff = 1 << (bitSize-1)` and the signed result. -/
def parseIntRange (s0 : String) (neg : Bool) (un : Nat) (bitSize : Nat) : Int × Option GoError :=
  let cutoff : Nat := 2 ^ (bitSize - 1) % 2 ^ 64
  if neg = false ∧ un ≥ cutoff then
    (toInt64 ((cutoff : Int) - 1), some (NumError.toError ⟨"ParseInt", s0, ErrRange⟩))
  else if neg = true ∧ un > cutoff then
    (toInt64 (- toInt64 (cutoff : Int)), some (NumError.toError ⟨"ParseInt", s0, ErrRange⟩))
  else
    let n := toInt64 (un : Int)
    (if neg = true then toInt64 (- n) else n, none)

/-- The part of `ParseInt` after the sign has been picked off: `s0` is the whole
string, `neg` the sign, `s` the string without its sign. -/
def parseIntSigned (s0 : String) (neg : Bool) (s : String) (base bitSize : Nat) :
    Int × Option GoError :=
  match ParseUint s base bitSize with
  | (un, some e) =>
    if e.Err ≠ ErrRange then (0, some (NumError.toError ⟨"ParseInt", s0, e.Err⟩))
    else parseIntRange s0 neg un bitSize
  | (un, none) => parseIntRange s0 neg un bitSize

/-- Function `strconv.ParseInt(s, base, bitSize)` for `2 <= base <= 36`, `bitSize > 0`. -/
def ParseInt (s : String) (base bitSize : Nat) : Int × Option GoError :=
  match s.data with
  | [] => (0, some (NumError.toError ⟨"ParseInt", s, ErrSyntax⟩))
  | c :: cs =>
    if c = '+' then parseIntSigned s false (String.mk cs) base bitSize
    else if c = '-' then parseIntSigned s true (String.mk cs) base bitSize
    else parseIntSigned s false s base bitSize

/-! ## `getPercentage` -/

/-- The error `fmt.Errorf("%s factor not between 0 and 100", factorName)`. -/
def outOfRangeError (factorName : String) : GoError :=
  GoError.errorString (factorName ++ " factor not between 0 and 100")

/-- Function `getPercentage` (common.go 87-101). -/
def getPercentage (factorName : String) (meta : StringMap) : Int × Option GoError :=
  let factor : String :=
    match meta with
    | none => "100"
    | some m =>
      match m.lookup factorName with
      | some v => v
      | none => "100"
  match ParseInt factor 10 32 with
  | (f, err) =>
    let err := if (f < 0 ∨ f > 100) ∧ err = none then some (outOfRangeError factorName) else err
    (toInt32 f, err)

/-! ## The persistent-volume-claim resource (persistentvolumeclaim.go) -/

/-- Phase `api.ClaimBound`; `api.PersistentVolumeClaimPhase` is a string type. -/
def ClaimBound : String := "Bound"

/-- The field `Status` of `api.PersistentVolumeClaim`, as far as the package reads it. -/
structure ClaimStatus where
  Phase : String
  deriving DecidableEq, Repr

/-- The Kubernetes object `api.PersistentVolumeClaim`, as far as the package reads
it: the name of its object metadata and its status. -/
structure ApiClaim where
  Name : String
  Status : ClaimStatus
  deriving DecidableEq, Repr

/-- The client `unversioned.PersistentVolumeClaimInterface`, as far as the package
calls it.  The type `σ` is the state of the remote system; every call is a state
transformer returning the Go result.  The client always returns a non-nil object
pointer; on an error the object is not looked at. -/
structure PersistentVolumeClaimInterface (σ : Type) where
  Get : String → σ → (ApiClaim × Option GoError) × σ
  Create : ApiClaim → σ → (ApiClaim × Option GoError) × σ
  Delete : String → σ → Option GoError × σ

/-- Struct `Base`: the metadata common to all resources. -/
structure Base where
  meta : StringMap

/-- Struct `PersistentVolumeClaim` (a managed claim); its field of the same name,
the local payload, is called `Claim` here. -/
structure PersistentVolumeClaim (σ : Type) where
  base : Base
  Claim : ApiClaim
  Client : PersistentVolumeClaimInterface σ

/-- Struct `ExistingPersistentVolumeClaim`. -/
structure ExistingPersistentVolumeClaim (σ : Type) where
  base : Base
  Name : String
  Client : PersistentVolumeClaimInterface σ

/-- Function `persistentVolumeClaimKey`. -/
def persistentVolumeClaimKey (name : String) : String :=
  "persistentvolumeclaim/" ++ name

/-- Function `persistentVolumeClaimStatus` (lines 42-53). -/
def persistentVolumeClaimStatus {σ : Type} (p : PersistentVolumeClaimInterface σ) (name : String)
    (w : σ) : (String × Option GoError) × σ :=
  match p.Get name w with
  | ((persistentVolumeClaim, err), w1) =>
    match err with
    | some e => (("error", some e), w1)
    | none =>
      if persistentVolumeClaim.Status.Phase = ClaimBound then (("ready", none), w1)
      else (("not ready", none), w1)

/-- Method `PersistentVolumeClaim.Key`. -/
def PersistentVolumeClaim.Key {σ : Type} (p : PersistentVolumeClaim σ) : String :=
  persistentVolumeClaimKey p.Claim.Name

/-- Method `PersistentVolumeClaim.Status`; the argument `meta` is not used. -/
def PersistentVolumeClaim.Status {σ : Type} (p : PersistentVolumeClaim σ) (_meta : StringMap)
    (w : σ) : (String × Option GoError) × σ :=
  persistentVolumeClaimStatus p.Client p.Claim.Name w

/-- Method `ExistingPersistentVolumeClaim.Key`. -/
def ExistingPersistentVolumeClaim.Key {σ : Type} (p : ExistingPersistentVolumeClaim σ) : String :=
  persistentVolumeClaimKey p.Name

/-- Method `ExistingPersistentVolumeClaim.Status`; the argument `meta` is not used. -/
def ExistingPersistentVolumeClaim.Status {σ : Type} (p : ExistingPersistentVolumeClaim σ)
    (_meta : StringMap) (w : σ) : (String × Option GoError) × σ :=
  persistentVolumeClaimStatus p.Client p.Name w

/-! ## Existence check, Create, Delete, NameMatches -/

/-- Modelled from the spec: the interface `interfaces.BaseResource`, declared outside
the two files at hand, as far as `checkExistence` uses it on a remote system: the key,
and `Status` as a transformer of the remote state `σ`. -/
structure RemoteResource (σ : Type) where
  Key : String
  Status : StringMap → σ → (String × Option GoError) × σ

/-- Function `checkExistence` (common.go 103-113). -/
def checkExistence {σ : Type} (r : RemoteResource σ) (w : σ) : Option GoError × σ :=
  match r.Status none w with
  | ((_status, err), w1) =>
    match err with
    | none => (none, w1)
    | some e => (some e, w1)

/-- How a call ends: it returns its `error` result, or the process exits inside
`log.Fatalf` after printing the message. -/
inductive Outcome where
  | returned (err : Option GoError)
  | fatal (message : String)
  deriving DecidableEq, Repr

/-- Function `createExistingResource` (common.go 115-121).  The call `log.Fatalf`
prints and exits the process; the `return` after it is not reached. -/
def createExistingResource {σ : Type} (r : RemoteResource σ) (w : σ) : Outcome × σ :=
  match checkExistence r w with
  | (some _, w1) => (Outcome.fatal ("Resource " ++ r.Key ++ " not found"), w1)
  | (none, w1) => (Outcome.returned none, w1)

/-- A managed claim passed as an `interfaces.BaseResource`. -/
def PersistentVolumeClaim.asResource {σ : Type} (p : PersistentVolumeClaim σ) : RemoteResource σ :=
  ⟨p.Key, p.Status⟩

/-- An existing claim passed as an `interfaces.BaseResource`. -/
def ExistingPersistentVolumeClaim.asResource {σ : Type} (p : ExistingPersistentVolumeClaim σ) :
    RemoteResource σ :=
  ⟨p.Key, p.Status⟩

/-- Body of the method `PersistentVolumeClaim.Create` (lines 55-62).  The receiver `p`
is passed by value: the body works on its own copy.  The result is the returned
error, the value of that copy when the method returns, and the remote state. -/
def PersistentVolumeClaim.CreateRun {σ : Type} (p : PersistentVolumeClaim σ) (w : σ) :
    (Option GoError × PersistentVolumeClaim σ) × σ :=
  match checkExistence p.asResource w with
  | (some _, w1) =>
    match p.Client.Create p.Claim w1 with
    | ((created, err), w2) => ((err, { p with Claim := created }), w2)
  | (none, w1) => ((none, p), w1)

/-- Method `PersistentVolumeClaim.Create`: what the caller gets, the returned error
and the remote state.  The copy of the receiver is dropped when the method returns;
the resource of the caller is the `p` it had before the call. -/
def PersistentVolumeClaim.Create {σ : Type} (p : PersistentVolumeClaim σ) (w : σ) :
    Option GoError × σ :=
  ((p.CreateRun w).1.1, (p.CreateRun w).2)

/-- Method `PersistentVolumeClaim.Delete` (lines 65-67). -/
def PersistentVolumeClaim.Delete {σ : Type} (p : PersistentVolumeClaim σ) (w : σ) :
    Option GoError × σ :=
  p.Client.Delete p.Claim.Name w

/-- Method `ExistingPersistentVolumeClaim.Create` (lines 103-105). -/
def ExistingPersistentVolumeClaim.Create {σ : Type} (p : ExistingPersistentVolumeClaim σ)
    (w : σ) : Outcome × σ :=
  createExistingResource p.asResource w

/-- Method `ExistingPersistentVolumeClaim.Delete` (lines 112-114). -/
def ExistingPersistentVolumeClaim.Delete {σ : Type} (p : ExistingPersistentVolumeClaim σ)
    (w : σ) : Option GoError × σ :=
  p.Client.Delete p.Name w

/-- A payload of a kind other than the volume claim, kept by its name. -/
structure ApiObject where
  Name : String
  deriving DecidableEq, Repr

/-- Modelled from the spec: the struct `client.ResourceDefinition`, declared outside
the two files at hand: free-form metadata and one optional payload per kind, a nil
pointer being `none`. -/
structure ResourceDefinition where
  Meta : StringMap
  Pod : Option ApiObject
  Job : Option ApiObject
  Service : Option ApiObject
  ReplicaSet : Option ApiObject
  PetSet : Option ApiObject
  DaemonSet : Option ApiObject
  ConfigMap : Option ApiObject
  Secret : Option ApiObject
  Deployment : Option ApiObject
  PersistentVolumeClaim : Option ApiClaim

/-- Method `PersistentVolumeClaim.NameMatches` (lines 75-77); `&&` evaluates its
right operand only when the pointer is not nil. -/
def PersistentVolumeClaim.NameMatches {σ : Type} (_p : PersistentVolumeClaim σ)
    (d : ResourceDefinition) (name : String) : Bool :=
  match d.PersistentVolumeClaim with
  | none => false
  | some claim => claim.Name == name

/-! ## The registry of kinds -/

/-- Modelled from the spec: the zero-value templates `DaemonSet{}`, `Job{}`, ... that
the literal `KindToResourceTemplate` registers; their types implement
`interfaces.ResourceTemplate` and are declared outside the two files at hand. -/
inductive ResourceTemplate where
  | DaemonSet | Job | PetSet | Pod | ReplicaSet | Service | ConfigMap | Secret | Deployment
  | PersistentVolumeClaim
  deriving DecidableEq, Repr

/-- Variable `KindToResourceTemplate` (common.go 49-60): the entries of the map
literal.  A Go map is held as the list of its entries, keys distinct; the order of
the list stands for the order in which `range` visits the map, which Go leaves
unspecified. -/
def KindToResourceTemplate : List (String × ResourceTemplate) :=
  [("daemonset", ResourceTemplate.DaemonSet),
   ("job", ResourceTemplate.Job),
   ("petset", ResourceTemplate.PetSet),
   ("pod", ResourceTemplate.Pod),
   ("replicaset", ResourceTemplate.ReplicaSet),
   ("service", ResourceTemplate.Service),
   ("configmap", ResourceTemplate.ConfigMap),
   ("secret", ResourceTemplate.Secret),
   ("deployment", ResourceTemplate.Deployment),
   ("persistentvolumeclaim", ResourceTemplate.PersistentVolumeClaim)]

/-- Function `getKeys` (common.go 65-71): `m` lists the entries in the order `range`
visits them; each step is `keys = append(keys, key)`. -/
def getKeys {V : Type} (m : List (String × V)) : List String :=
  m.foldl (fun keys entry => keys ++ [entry.1]) []

/-- Variable `Kinds` (common.go 63). -/
def Kinds : List String := getKeys KindToResourceTemplate

/-! ## Vocabulary of the specification -/

/-- The resource answers `("ready", nil)` to `Status(nil)`. -/
def answersReady (r : BaseResource) : Prop := r.Status none = ("ready", none)

instance (r : BaseResource) : Decidable (answersReady r) :=
  inferInstanceAs (Decidable (r.Status none = ("ready", none)))

/-- The value stored under the factor name, or the default `"100"` when the map is
nil or lacks the key. -/
def storedFactor (factorName : String) (meta : StringMap) : String :=
  ((meta.bind (fun m => m.lookup factorName)).getD "100")

/-- The characters `0` to `9`. -/
def isDecimalDigit (c : Char) : Prop := 48 ≤ c.toNat ∧ c.toNat ≤ 57

instance (c : Char) : Decidable (isDecimalDigit c) :=
  inferInstanceAs (Decidable (48 ≤ c.toNat ∧ c.toNat ≤ 57))

/-- Value of a string of decimal digits read most significant digit first,
continuing from `acc`. -/
def digitsValue (acc : Nat) (ds : List Char) : Nat :=
  ds.foldl (fun a c => 10 * a + (c.toNat - 48)) acc

/-- An unsigned base-10 numeral: one or more decimal digits. -/
def decimalNat (ds : List Char) : Option Nat :=
  if ds ≠ [] ∧ ∀ c ∈ ds, isDecimalDigit c then some (digitsValue 0 ds) else none

/-- The integer a string denotes in base 10: an optional sign `+` or `-` followed by
one or more decimal digits; `none` when the string is not of that form. -/
def decimalValue (s : String) : Option Int :=
  match s.data with
  | [] => none
  | c :: cs =>
    if c = '+' then (decimalNat cs).map (fun (n : Nat) => (n : Int))
    else if c = '-' then (decimalNat cs).map (fun (n : Nat) => - (n : Int))
    else (decimalNat (c :: cs)).map (fun (n : Nat) => (n : Int))

/-- The string is written with a minus sign in front. -/
def hasMinusSign (s : String) : Bool :=
  match s.data with
  | [] => false
  | c :: _ => decide (c = '-')

/-- The characters of a string after its optional sign `+` or `-`. -/
def afterSign (s : String) : List Char :=
  match s.data with
  | [] => []
  | c :: cs => if c = '+' ∨ c = '-' then cs else c :: cs

/-- Value of the decimal digits that stand after the optional sign, up to the first
character that is not a decimal digit (0 when there is none). -/
def leadingDigitsValue (s : String) : Nat :=
  digitsValue 0 ((afterSign s).takeWhile (fun c => decide (isDecimalDigit c)))

/-- The message of an error mentions the key. -/
def mentionsKey (message key : String) : Prop := key.data <:+: message.data

/-- What the specification says of a `Status` result `res` (answer and remote state
after the call), given the result `get` of the one `Get` call on the resource name:
the remote state is the one `Get` left; the answer is `("error", err)` with the error
of `Get` when it failed, `("ready", nil)` when it succeeded with phase Bound,
`("not ready", nil)` when it succeeded with another phase; and nothing else. -/
def statusFollowsGet {σ : Type} (get : (ApiClaim × Option GoError) × σ)
    (res : (String × Option GoError) × σ) : Prop :=
  res.2 = get.2
    ∧ (∀ e, get.1.2 = some e → res.1 = ("error", some e))
    ∧ (get.1.2 = none → get.1.1.Status.Phase = ClaimBound → res.1 = ("ready", none))
    ∧ (get.1.2 = none → get.1.1.Status.Phase ≠ ClaimBound → res.1 = ("not ready", none))
    ∧ ((∃ e, res.1 = ("error", some e)) ∨ res.1 = ("ready", none) ∨ res.1 = ("not ready", none))

/-- A call made on the remote client. -/
inductive ClientCall where
  | get (name : String)
  | create (payload : ApiClaim)
  | delete (name : String)
  deriving DecidableEq, Repr

/-- The client `c` with a record of the calls made on it: the remote state is paired
with the list of calls so far, and every call is appended to it; results and the
remote state are those of `c`. -/
def recording {σ : Type} (c : PersistentVolumeClaimInterface σ) :
    PersistentVolumeClaimInterface (σ × List ClientCall) where
  Get := fun name s =>
    ((c.Get name s.1).1, ((c.Get name s.1).2, s.2 ++ [ClientCall.get name]))
  Create := fun payload s =>
    ((c.Create payload s.1).1, ((c.Create payload s.1).2, s.2 ++ [ClientCall.create payload]))
  Delete := fun name s =>
    ((c.Delete name s.1).1, ((c.Delete name s.1).2, s.2 ++ [ClientCall.delete name]))

/-- The remote system behaves as a store: after a successful create of a claim, a
read of its name succeeds. -/
def createdIsFound {σ : Type} (c : PersistentVolumeClaimInterface σ) : Prop :=
  ∀ (claim : ApiClaim) (w : σ),
    (c.Create claim w).1.2 = none → (c.Get claim.Name (c.Create claim w).2).1.2 = none

/-- No other actor interferes: after a successful read of a name, the next read of
that name succeeds. -/
def foundStaysFound {σ : Type} (c : PersistentVolumeClaimInterface σ) : Prop :=
  ∀ (name : String) (w : σ),
    (c.Get name w).1.2 = none → (c.Get name (c.Get name w).2).1.2 = none

/-! ## Concrete resources used as examples -/

/-- A resource with the given key that answers `(status, nil)`. -/
def stubResource (key status : String) : BaseResource :=
  ⟨key, fun _ => (status, none)⟩

/-- A resource with the given key whose `Status` call fails with `err`. -/
def failingResource (key : String) (err : GoError) : BaseResource :=
  ⟨key, fun _ => ("error", some err)⟩

/-- The error a remote read answers for a name it does not know. -/
def notFound (name : String) : GoError :=
  GoError.errorString ("persistentvolumeclaims \"" ++ name ++ "\" not found")

/-- A remote system held in memory: the state is the list of stored claims; `Get`
finds a claim by name, `Create` stores a claim under a new name, `Delete` removes
the claims of a name. -/
def memoryClient : PersistentVolumeClaimInterface (List ApiClaim) where
  Get := fun name w =>
    match w.find? (fun c => c.Name = name) with
    | some c => ((c, none), w)
    | none => ((⟨"", ⟨""⟩⟩, some (notFound name)), w)
  Create := fun c w =>
    if w.any (fun d => d.Name = c.Name) then
      ((⟨"", ⟨""⟩⟩, some (GoError.errorString
        ("persistentvolumeclaims \"" ++ c.Name ++ "\" already exists"))), w)
    else ((c, none), w ++ [c])
  Delete := fun name w =>
    if w.any (fun d => d.Name = name) then (none, w.filter (fun d => d.Name ≠ name))
    else (some (notFound name), w)

/-- A remote state with a bound claim "data" and a pending claim "logs". -/
def sampleRemote : List ApiClaim := [⟨"data", ⟨"Bound"⟩⟩, ⟨"logs", ⟨"Pending"⟩⟩]

/-- The in-memory remote with a server-assigned field: a created claim is stored and
returned with the phase "Pending". -/
def pendingClient : PersistentVolumeClaimInterface (List ApiClaim) where
  Get := memoryClient.Get
  Create := fun c w => memoryClient.Create ⟨c.Name, ⟨"Pending"⟩⟩ w
  Delete := memoryClient.Delete

/-- A definition that carries a volume claim named "data". -/
def claimDefinition : ResourceDefinition :=
  ⟨none, none, none, none, none, none, none, none, none, none, some ⟨"data", ⟨""⟩⟩⟩

/-- A definition that carries only a pod, named "data". -/
def podDefinition : ResourceDefinition :=
  ⟨none, some ⟨"data"⟩, none, none, none, none, none, none, none, none, none⟩

/-- A managed claim "data", not yet created, on the remote that assigns the phase. -/
def newClaim : PersistentVolumeClaim (List ApiClaim) :=
  ⟨⟨none⟩, ⟨"data", ⟨""⟩⟩, pendingClient⟩

/-! # Properties

## `resourceListReady` -/

theorem resourceListReady_nil : resourceListReady [] = ("ready", none) := rfl

theorem resourceListReadyRun_cons_ready (r : BaseResource) (rest : List BaseResource)
    (h : r.Status none = ("ready", none)) :
    resourceListReadyRun (r :: rest)
      = ((resourceListReadyRun rest).1, r :: (resourceListReadyRun rest).2) := by
  simp [resourceListReadyRun, h]

theorem resourceListReadyRun_cons_error (r : BaseResource) (rest : List BaseResource)
    (s : String) (e : GoError) (h : r.Status none = (s, some e)) :
    resourceListReadyRun (r :: rest) = (("error", some e), [r]) := by
  simp [resourceListReadyRun, h]

theorem resourceListReadyRun_cons_notReady (r : BaseResource) (rest : List BaseResource)
    (s : String) (h : r.Status none = (s, none)) (hs : s ≠ "ready") :
    resourceListReadyRun (r :: rest)
      = (("not ready", some (GoError.errorString ("Resource " ++ r.Key ++ " is not ready"))), [r]) := by
  simp [resourceListReadyRun, h, hs]

/-- Every answer is of one of three kinds: ready, an error, or a non-ready status. -/
theorem status_cases (r : BaseResource) :
    r.Status none = ("ready", none)
      ∨ (∃ s e, r.Status none = (s, some e))
      ∨ (∃ s, r.Status none = (s, none) ∧ s ≠ "ready") := by
  rcases hst : r.Status none with ⟨s, _ | e⟩
  · by_cases hs : s = "ready"
    · left; rw [hs]
    · right; right; exact ⟨s, rfl, hs⟩
  · right; left; exact ⟨s, e, rfl⟩

theorem resourceListReadyRun_append_ready (pre l : List BaseResource)
    (h : ∀ x ∈ pre, x.Status none = ("ready", none)) :
    resourceListReadyRun (pre ++ l)
      = ((resourceListReadyRun l).1, pre ++ (resourceListReadyRun l).2) := by
  induction pre with
  | nil => simp
  | cons x xs ih =>
    have hx : x.Status none = ("ready", none) := h x (List.mem_cons_self _ _)
    have hxs : ∀ y ∈ xs, y.Status none = ("ready", none) :=
      fun y hy => h y (List.mem_cons_of_mem _ hy)
    rw [List.cons_append, resourceListReadyRun_cons_ready _ _ hx, ih hxs]
    simp

/-- Claim C1: for every list of resources, the empty one included, `resourceListReady`
returns the status "ready" with a nil error if and only if every resource of the list
answers `Status(nil)` with the status "ready" and a nil error. -/
theorem resourceListReady_ready_iff (resources : List BaseResource) :
    resourceListReady resources = ("ready", none)
      ↔ ∀ r ∈ resources, r.Status none = ("ready", none) := by
  induction resources with
  | nil => simp [resourceListReady_nil]
  | cons r rest ih =>
    rcases status_cases r with h | ⟨s, e, h⟩ | ⟨s, h, hs⟩
    · have : resourceListReady (r :: rest) = resourceListReady rest := by
        simp [resourceListReady, resourceListReadyRun_cons_ready _ _ h]
      rw [this, ih]
      simp [h]
    · have : resourceListReady (r :: rest) = ("error", some e) := by
        simp [resourceListReady, resourceListReadyRun_cons_error _ _ s e h]
      rw [this]
      simp [h]
    · have : resourceListReady (r :: rest)
          = ("not ready", some (GoError.errorString ("Resource " ++ r.Key ++ " is not ready"))) := by
        simp [resourceListReady, resourceListReadyRun_cons_notReady _ _ s h hs]
      rw [this]
      simp [h, hs]

/-- Claim C2: when the first resource, in input order, that does not answer
("ready", nil) answers a status other than "ready" with a nil error, the result is the
status "not ready" with the error "Resource <key> is not ready" built from the key of
that resource; what follows it in the list has no influence. -/
theorem resourceListReady_first_notReady (pre post : List BaseResource) (r : BaseResource)
    (s : String) (hpre : ∀ x ∈ pre, x.Status none = ("ready", none))
    (hr : r.Status none = (s, none)) (hs : s ≠ "ready") :
    resourceListReady (pre ++ r :: post)
        = ("not ready", some (GoError.errorString ("Resource " ++ r.Key ++ " is not ready")))
      ∧ (∀ quote, GoError.Error quote (GoError.errorString ("Resource " ++ r.Key ++ " is not ready"))
          = "Resource " ++ r.Key ++ " is not ready")
      ∧ mentionsKey ("Resource " ++ r.Key ++ " is not ready") r.Key := by
  refine ⟨?_, fun _ => rfl, ?_⟩
  · simp [resourceListReady, resourceListReadyRun_append_ready _ _ hpre,
      resourceListReadyRun_cons_notReady _ _ s hr hs]
  · unfold mentionsKey
    exact ⟨"Resource ".data, " is not ready".data, by simp [String.data_append]⟩

/-- Instance of C2: in [a (ready), b ("pending"), c ("pending")] the error names b. -/
theorem resourceListReady_first_notReady_witness :
    resourceListReady ([stubResource "pod/a" "ready"] ++ stubResource "pod/b" "pending"
        :: [stubResource "pod/c" "pending"])
        = ("not ready", some (GoError.errorString "Resource pod/b is not ready")) :=
  (resourceListReady_first_notReady [stubResource "pod/a" "ready"] [stubResource "pod/c" "pending"]
    (stubResource "pod/b" "pending") "pending"
    (by intro x hx; rw [List.mem_singleton] at hx; subst hx; rfl) rfl (by decide)).1

/-- Counterexample to C3 as stated: the resource "pod/a" fails with the error "boom";
the group result carries that very error, whose message is "boom" and does not
contain the key "pod/a". -/
theorem resourceListReady_error_not_tagged :
    resourceListReady [failingResource "pod/a" (GoError.errorString "boom")]
        = ("error", some (GoError.errorString "boom"))
      ∧ (∀ quote, GoError.Error quote (GoError.errorString "boom") = "boom")
      ∧ ¬ mentionsKey "boom" "pod/a" := by
  refine ⟨rfl, fun _ => rfl, ?_⟩
  unfold mentionsKey
  decide

/-- Claim C3, amended: when the first resource that does not answer ("ready", nil)
answers with an error, `resourceListReady` returns the status "error" together with
that error, unchanged; the resources after it have no influence. -/
theorem resourceListReady_first_error (pre post : List BaseResource) (r : BaseResource)
    (s : String) (e : GoError) (hpre : ∀ x ∈ pre, x.Status none = ("ready", none))
    (hr : r.Status none = (s, some e)) :
    resourceListReady (pre ++ r :: post) = ("error", some e) := by
  simp [resourceListReady, resourceListReadyRun_append_ready _ _ hpre,
    resourceListReadyRun_cons_error _ _ s e hr]

/-- Instance of the amended C3: [a (ready), b (fails with "boom"), c (ready)]. -/
theorem resourceListReady_first_error_witness :
    resourceListReady ([stubResource "pod/a" "ready"]
        ++ failingResource "pod/b" (GoError.errorString "boom") :: [stubResource "pod/c" "ready"])
        = ("error", some (GoError.errorString "boom")) :=
  resourceListReady_first_error [stubResource "pod/a" "ready"] [stubResource "pod/c" "ready"]
    (failingResource "pod/b" (GoError.errorString "boom")) "error" (GoError.errorString "boom")
    (by intro x hx; rw [List.mem_singleton] at hx; subst hx; rfl) rfl

theorem resourceListReadyRun_cons_not_ready_calls (r : BaseResource) (rest : List BaseResource)
    (h : ¬ r.Status none = ("ready", none)) :
    (resourceListReadyRun (r :: rest)).2 = [r] := by
  rcases status_cases r with h1 | ⟨s, e, h1⟩ | ⟨s, h1, hs⟩
  · exact absurd h1 h
  · rw [resourceListReadyRun_cons_error _ _ s e h1]
  · rw [resourceListReadyRun_cons_notReady _ _ s h1 hs]

/-- Claim C4: the `Status` calls of `resourceListReady` are, in input order, the
resources that answer ("ready", nil) up to the first one that does not, followed by
that one resource (if there is one): the input prefix up to and including the first
failing resource, the whole list when none fails.  No resource after it is called. -/
theorem resourceListReadyCalls_eq_takeWhile (resources : List BaseResource) :
    resourceListReadyCalls resources
      = resources.takeWhile (fun r => decide (answersReady r))
          ++ (resources.dropWhile (fun r => decide (answersReady r))).take 1 := by
  induction resources with
  | nil => rfl
  | cons r rest ih =>
    by_cases h : r.Status none = ("ready", none)
    · unfold resourceListReadyCalls at ih ⊢
      rw [resourceListReadyRun_cons_ready _ _ h]
      simp [List.takeWhile_cons, List.dropWhile_cons, answersReady, h, ih]
    · unfold resourceListReadyCalls
      rw [resourceListReadyRun_cons_not_ready_calls _ _ h]
      simp [List.takeWhile_cons, List.dropWhile_cons, answersReady, h]

/-- Instance of C4: for [A (ready), B (not ready), C (ready)] the calls are A then B;
the `Status` of C is not called. -/
theorem resourceListReadyCalls_witness :
    (resourceListReadyCalls
        [stubResource "A" "ready", stubResource "B" "not ready", stubResource "C" "ready"]).map
        (fun r => r.Key) = ["A", "B"] := by
  rw [resourceListReadyCalls_eq_takeWhile]
  decide

/-! ## `strconv.ParseInt` in base 10 with 32 bits computes `decimalValue` -/

theorem digitVal_of_digit (d : Char) (h : isDecimalDigit d) :
    digitVal d = some (d.toNat - 48) := by
  have h0 : '0'.toNat = 48 := rfl
  have h9 : '9'.toNat = 57 := rfl
  unfold isDecimalDigit at h
  unfold digitVal
  rw [h0, h9, if_pos h]

theorem digitVal_of_not_digit (d : Char) (h : ¬ isDecimalDigit d) :
    digitVal d = none ∨ ∃ v, digitVal d = some v ∧ 10 ≤ v := by
  have h0 : '0'.toNat = 48 := rfl
  have h9 : '9'.toNat = 57 := rfl
  unfold isDecimalDigit at h
  unfold digitVal
  rw [h0, h9, if_neg h]
  split_ifs
  · right; exact ⟨_, rfl, Nat.le_add_left _ _⟩
  · right; exact ⟨_, rfl, Nat.le_add_left _ _⟩
  · left; rfl

theorem le_digitsValue (ds : List Char) (acc : Nat) : acc ≤ digitsValue acc ds := by
  induction ds generalizing acc with
  | nil => exact Nat.le_refl _
  | cons c cs ih =>
    have h := ih (10 * acc + (c.toNat - 48))
    have e : digitsValue acc (c :: cs) = digitsValue (10 * acc + (c.toNat - 48)) cs := rfl
    rw [e]
    omega

/-- One step of the loop on a decimal digit, from an accumulator below `2^32`. -/
theorem parseUintLoop_cons_digit (d : Char) (ds : List Char) (n : Nat)
    (hd : isDecimalDigit d) (hn : n ≤ 4294967295) :
    parseUintLoop 10 (maxUint64 / 10 + 1) 4294967295 (d :: ds) n
      = if 10 * n + (d.toNat - 48) > 4294967295 then (maxUint64, some ErrRange)
        else parseUintLoop 10 (maxUint64 / 10 + 1) 4294967295 ds (10 * n + (d.toNat - 48)) := by
  have hv : d.toNat - 48 < 10 := by
    unfold isDecimalDigit at hd
    omega
  have h1 : ¬ (d.toNat - 48 ≥ 10) := by omega
  have h2 : ¬ (n ≥ maxUint64 / 10 + 1) := by
    unfold maxUint64
    norm_num
    omega
  have h3 : (10 * n + (d.toNat - 48)) % 2 ^ 64 = 10 * n + (d.toNat - 48) := by
    norm_num
    omega
  have h4 : n * 10 % 2 ^ 64 = 10 * n := by
    norm_num
    omega
  rw [parseUintLoop, digitVal_of_digit d hd]
  simp only [h1, h2, h3, h4, if_false]
  by_cases h5 : 10 * n + (d.toNat - 48) > 4294967295
  · rw [if_pos (Or.inr h5), if_pos h5]
  · have h6 : ¬ (10 * n + (d.toNat - 48) < 10 * n ∨ 10 * n + (d.toNat - 48) > 4294967295) := by
      omega
    rw [if_neg h6, if_neg h5]

/-- On a string of decimal digits the loop returns their value, or the range error
when the value exceeds `2^32 - 1`. -/
theorem parseUintLoop_digits (ds : List Char) (n : Nat) (hn : n ≤ 4294967295)
    (hall : ∀ c ∈ ds, isDecimalDigit c) :
    parseUintLoop 10 (maxUint64 / 10 + 1) 4294967295 ds n
      = if digitsValue n ds ≤ 4294967295 then (digitsValue n ds, none)
        else (maxUint64, some ErrRange) := by
  induction ds generalizing n with
  | nil =>
    have e : digitsValue n [] = n := rfl
    rw [e, if_pos hn, parseUintLoop]
  | cons d ds ih =>
    have hd : isDecimalDigit d := hall d (List.mem_cons_self _ _)
    have hds : ∀ c ∈ ds, isDecimalDigit c := fun c hc => hall c (List.mem_cons_of_mem _ hc)
    have e : digitsValue n (d :: ds) = digitsValue (10 * n + (d.toNat - 48)) ds := rfl
    rw [parseUintLoop_cons_digit d ds n hd hn, e]
    by_cases h5 : 10 * n + (d.toNat - 48) > 4294967295
    · have hge := le_digitsValue ds (10 * n + (d.toNat - 48))
      have h6 : ¬ digitsValue (10 * n + (d.toNat - 48)) ds ≤ 4294967295 := by omega
      rw [if_pos h5, if_neg h6]
    · rw [if_neg h5]
      exact ih _ (by omega) hds

/-- On a string with a character that is not a decimal digit the loop fails: with the
syntax error, or with the range error when the digits before that character already
exceed `2^32 - 1`. -/
theorem parseUintLoop_not_digits (ds : List Char) (n : Nat) (hn : n ≤ 4294967295)
    (hnot : ¬ ∀ c ∈ ds, isDecimalDigit c) :
    parseUintLoop 10 (maxUint64 / 10 + 1) 4294967295 ds n = (0, some ErrSyntax)
      ∨ parseUintLoop 10 (maxUint64 / 10 + 1) 4294967295 ds n = (maxUint64, some ErrRange) := by
  induction ds generalizing n with
  | nil => exact absurd (fun c hc => absurd hc (List.not_mem_nil c)) hnot
  | cons d ds ih =>
    by_cases hd : isDecimalDigit d
    · rw [parseUintLoop_cons_digit d ds n hd hn]
      by_cases h5 : 10 * n + (d.toNat - 48) > 4294967295
      · right; rw [if_pos h5]
      · rw [if_neg h5]
        apply ih _ (by omega)
        intro hds
        apply hnot
        intro c hc
        rcases List.mem_cons.mp hc with rfl | hc
        · exact hd
        · exact hds c hc
    · left
      rcases digitVal_of_not_digit d hd with h | ⟨v, h, hv⟩
      · rw [parseUintLoop, h]
      · rw [parseUintLoop, h]
        simp only [ge_iff_le, hv, if_true]

theorem ParseUint_eq (s : String) :
    ParseUint s 10 32
      = if s.data = [] then (0, some ⟨"ParseUint", s, ErrSyntax⟩)
        else match parseUintLoop 10 (maxUint64 / 10 + 1) 4294967295 s.data 0 with
          | (n, none) => (n, none)
          | (n, some err) => (n, some ⟨"ParseUint", s, err⟩) := by
  have hm : (2 ^ 32 % 2 ^ 64 + 2 ^ 64 - 1) % 2 ^ 64 = 4294967295 := by norm_num
  have hl : (s.length < 1) ↔ s.data = [] := by
    rw [← List.length_eq_zero]
    show s.data.length < 1 ↔ _
    omega
  unfold ParseUint
  simp only [hm, hl]

theorem decimalNat_eq_some (ds : List Char) (v : Nat) (h : decimalNat ds = some v) :
    ds ≠ [] ∧ (∀ c ∈ ds, isDecimalDigit c) ∧ v = digitsValue 0 ds := by
  unfold decimalNat at h
  split_ifs at h with hc
  exact ⟨hc.1, hc.2, (Option.some.inj h).symm⟩

theorem decimalNat_eq_none (ds : List Char) (h : decimalNat ds = none) :
    ds = [] ∨ ¬ ∀ c ∈ ds, isDecimalDigit c := by
  unfold decimalNat at h
  split_ifs at h with hc
  by_cases hn : ds = []
  · exact Or.inl hn
  · exact Or.inr (fun hall => hc ⟨hn, hall⟩)

theorem ParseUint_of_decimal_le (s : String) (v : Nat) (h : decimalNat s.data = some v)
    (hv : v ≤ 4294967295) : ParseUint s 10 32 = (v, none) := by
  obtain ⟨hne, hall, rfl⟩ := decimalNat_eq_some _ _ h
  rw [ParseUint_eq, if_neg hne, parseUintLoop_digits _ 0 (by omega) hall, if_pos hv]

theorem ParseUint_of_decimal_gt (s : String) (v : Nat) (h : decimalNat s.data = some v)
    (hv : 4294967295 < v) :
    ParseUint s 10 32 = (maxUint64, some ⟨"ParseUint", s, ErrRange⟩) := by
  obtain ⟨hne, hall, rfl⟩ := decimalNat_eq_some _ _ h
  rw [ParseUint_eq, if_neg hne, parseUintLoop_digits _ 0 (by omega) hall,
    if_neg (by omega)]

theorem ParseUint_of_not_decimal (s : String) (h : decimalNat s.data = none) :
    ParseUint s 10 32 = (0, some ⟨"ParseUint", s, ErrSyntax⟩)
      ∨ ParseUint s 10 32 = (maxUint64, some ⟨"ParseUint", s, ErrRange⟩) := by
  rw [ParseUint_eq]
  rcases decimalNat_eq_none _ h with hnil | hnot
  · left; rw [if_pos hnil]
  · have hne : s.data ≠ [] := by
      intro hnil
      apply hnot
      rw [hnil]
      intro c hc
      exact absurd hc (List.not_mem_nil c)
    rw [if_neg hne]
    rcases parseUintLoop_not_digits _ 0 (by omega) hnot with hl | hl
    · left; rw [hl]
    · right; rw [hl]

theorem ErrSyntax_ne_ErrRange : ErrSyntax ≠ ErrRange := by decide


theorem toInt64_of_small (x : Int) (h1 : -2147483648 ≤ x) (h2 : x ≤ 2147483648) :
    toInt64 x = x := by
  unfold toInt64
  omega

/-- The range checks of `ParseInt` for 32 bits, non-negative case. -/
theorem parseIntRange_pos (s0 : String) (un : Nat) :
    parseIntRange s0 false un 32
      = if un ≤ 2147483647 then ((un : Int), none)
        else (2147483647, some (GoError.numError "ParseInt" s0 ErrRange)) := by
  have hc : 2 ^ (32 - 1) % 2 ^ 64 = 2147483648 := by norm_num
  have e1 : toInt64 (((2147483648 : Nat) : Int) - 1) = 2147483647 := by
    rw [toInt64_of_small _ (by omega) (by omega)]
    omega
  unfold parseIntRange
  simp only [hc]
  by_cases h : un ≤ 2147483647
  · have e2 : toInt64 (un : Int) = un := toInt64_of_small _ (by omega) (by omega)
    have h' : ¬ un ≥ 2147483648 := by omega
    simp [h, h', e2]
  · have h' : un ≥ 2147483648 := by omega
    simp only [h, h', e1, and_self, if_true, if_false, NumError.toError]

/-- The range checks of `ParseInt` for 32 bits, negative case. -/
theorem parseIntRange_neg (s0 : String) (un : Nat) :
    parseIntRange s0 true un 32
      = if un ≤ 2147483648 then (- (un : Int), none)
        else (-2147483648, some (GoError.numError "ParseInt" s0 ErrRange)) := by
  have hc : 2 ^ (32 - 1) % 2 ^ 64 = 2147483648 := by norm_num
  have e0 : toInt64 ((2147483648 : Nat) : Int) = 2147483648 := by
    rw [toInt64_of_small _ (by omega) (by omega)]
    omega
  have e1 : toInt64 (-2147483648) = -2147483648 := toInt64_of_small _ (by omega) (by omega)
  unfold parseIntRange
  simp only [hc]
  by_cases h : un ≤ 2147483648
  · have e2 : toInt64 (un : Int) = un := toInt64_of_small _ (by omega) (by omega)
    have e3 : toInt64 (- (un : Int)) = - (un : Int) := toInt64_of_small _ (by omega) (by omega)
    have h' : ¬ un > 2147483648 := by omega
    simp [h, h', e2, e3]
  · have h' : un > 2147483648 := by omega
    simp only [h, h', e0, e1, and_self, if_true, if_false, NumError.toError]
    simp

/-- The value of an optionally negated numeral lies in the 32-bit signed range. -/
theorem parseIntSigned_of_decimal (s0 : String) (neg : Bool) (s : String) (v : Nat)
    (h : decimalNat s.data = some v) :
    parseIntSigned s0 neg s 10 32
      = if (neg = false ∧ v ≤ 2147483647) ∨ (neg = true ∧ v ≤ 2147483648) then
          ((if neg = true then - (v : Int) else (v : Int)), none)
        else
          ((if neg = true then -2147483648 else 2147483647),
            some (GoError.numError "ParseInt" s0 ErrRange)) := by
  unfold parseIntSigned
  by_cases hv : v ≤ 4294967295
  · rw [ParseUint_of_decimal_le s v h hv]
    cases neg
    · simp [parseIntRange_pos]
    · simp [parseIntRange_neg]
  · rw [ParseUint_of_decimal_gt s v h (by omega)]
    have hm : ¬ maxUint64 ≤ 2147483648 := by unfold maxUint64; norm_num
    have hm2 : ¬ maxUint64 ≤ 2147483647 := by unfold maxUint64; norm_num
    have hv1 : ¬ v ≤ 2147483647 := by omega
    have hv2 : ¬ v ≤ 2147483648 := by omega
    cases neg
    · simp [parseIntRange_pos, hm2, hv1]
    · simp [parseIntRange_neg, hm, hv2]

theorem parseIntSigned_of_not_decimal (s0 : String) (neg : Bool) (s : String)
    (h : decimalNat s.data = none) :
    parseIntSigned s0 neg s 10 32 = (0, some (GoError.numError "ParseInt" s0 ErrSyntax))
      ∨ parseIntSigned s0 neg s 10 32
          = ((if neg = true then -2147483648 else 2147483647),
              some (GoError.numError "ParseInt" s0 ErrRange)) := by
  unfold parseIntSigned
  have hm : ¬ maxUint64 ≤ 2147483648 := by unfold maxUint64; norm_num
  have hm2 : ¬ maxUint64 ≤ 2147483647 := by unfold maxUint64; norm_num
  rcases ParseUint_of_not_decimal s h with hu | hu
  · left
    rw [hu]
    simp [ErrSyntax_ne_ErrRange, NumError.toError]
  · right
    rw [hu]
    cases neg
    · simp [parseIntRange_pos, hm2]
    · simp [parseIntRange_neg, hm]

theorem parseIntSigned_plus (s0 s : String) (v : Nat) (h : decimalNat s.data = some v) :
    parseIntSigned s0 false s 10 32
      = if -2147483648 ≤ (v : Int) ∧ (v : Int) ≤ 2147483647 then ((v : Int), none)
        else ((if (v : Int) < 0 then -2147483648 else 2147483647),
          some (GoError.numError "ParseInt" s0 ErrRange)) := by
  rw [parseIntSigned_of_decimal s0 false s v h]
  by_cases hr : v ≤ 2147483647
  · have h1 : -2147483648 ≤ (v : Int) ∧ (v : Int) ≤ 2147483647 := ⟨by omega, by omega⟩
    simp [hr, h1]
  · have h1 : ¬ (-2147483648 ≤ (v : Int) ∧ (v : Int) ≤ 2147483647) := by omega
    have h2 : ¬ (v : Int) < 0 := by omega
    simp only [hr, h1, h2, and_false, false_and, or_self, if_false, Bool.false_eq_true]

theorem parseIntSigned_minus (s0 s : String) (v : Nat) (h : decimalNat s.data = some v) :
    parseIntSigned s0 true s 10 32
      = if -2147483648 ≤ - (v : Int) ∧ - (v : Int) ≤ 2147483647 then (- (v : Int), none)
        else ((if - (v : Int) < 0 then -2147483648 else 2147483647),
          some (GoError.numError "ParseInt" s0 ErrRange)) := by
  rw [parseIntSigned_of_decimal s0 true s v h]
  by_cases hr : v ≤ 2147483648
  · have h1 : -2147483648 ≤ - (v : Int) ∧ - (v : Int) ≤ 2147483647 := ⟨by omega, by omega⟩
    simp only [hr, h1, and_self, and_true, or_true, if_true]
  · have h1 : ¬ (-2147483648 ≤ - (v : Int) ∧ - (v : Int) ≤ 2147483647) := by omega
    have h2 : - (v : Int) < 0 := by omega
    simp [hr, h1, h2]

/-- The integer parser on a base-10 integer: its value when it fits in 32 bits, else
the range error with the nearest 32-bit bound. -/
theorem ParseInt_of_decimal (s : String) (z : Int) (h : decimalValue s = some z) :
    ParseInt s 10 32
      = if -2147483648 ≤ z ∧ z ≤ 2147483647 then (z, none)
        else ((if z < 0 then -2147483648 else 2147483647),
          some (GoError.numError "ParseInt" s ErrRange)) := by
  unfold decimalValue at h
  unfold ParseInt
  cases hd : s.data with
  | nil => rw [hd] at h; exact absurd h (by simp)
  | cons c cs =>
    rw [hd] at h
    simp only at h ⊢
    by_cases hp : c = '+'
    · rw [if_pos hp] at h
      rw [if_pos hp]
      obtain ⟨v, hv, rfl⟩ := Option.map_eq_some'.mp h
      exact parseIntSigned_plus s (String.mk cs) v hv
    · rw [if_neg hp] at h
      rw [if_neg hp]
      by_cases hm : c = '-'
      · rw [if_pos hm] at h
        rw [if_pos hm]
        obtain ⟨v, hv, rfl⟩ := Option.map_eq_some'.mp h
        exact parseIntSigned_minus s (String.mk cs) v hv
      · rw [if_neg hm] at h
        rw [if_neg hm]
        obtain ⟨v, hv, rfl⟩ := Option.map_eq_some'.mp h
        rw [← hd] at hv
        exact parseIntSigned_plus s s v hv

/-- The integer parser on a string that is not a base-10 integer: an error, the
syntax error or (when leading digits already overflow 32 bits) the range error. -/
theorem ParseInt_of_not_decimal (s : String) (h : decimalValue s = none) :
    ParseInt s 10 32 = (0, some (GoError.numError "ParseInt" s ErrSyntax))
      ∨ ParseInt s 10 32 = (2147483647, some (GoError.numError "ParseInt" s ErrRange))
      ∨ ParseInt s 10 32 = (-2147483648, some (GoError.numError "ParseInt" s ErrRange)) := by
  unfold decimalValue at h
  unfold ParseInt
  cases hd : s.data with
  | nil => left; simp [NumError.toError]
  | cons c cs =>
    rw [hd] at h
    simp only at h ⊢
    by_cases hp : c = '+'
    · rw [if_pos hp] at h
      rw [if_pos hp]
      have hv : decimalNat (String.mk cs).data = none := Option.map_eq_none'.mp h
      rcases parseIntSigned_of_not_decimal s false _ hv with h1 | h1
      · left; exact h1
      · right; left; rw [h1]; simp
    · rw [if_neg hp] at h
      rw [if_neg hp]
      by_cases hm : c = '-'
      · rw [if_pos hm] at h
        rw [if_pos hm]
        have hv : decimalNat (String.mk cs).data = none := Option.map_eq_none'.mp h
        rcases parseIntSigned_of_not_decimal s true _ hv with h1 | h1
        · left; exact h1
        · right; right; rw [h1]; simp
      · rw [if_neg hm] at h
        rw [if_neg hm]
        have hv : decimalNat s.data = none := by rw [hd]; exact Option.map_eq_none'.mp h
        rcases parseIntSigned_of_not_decimal s false _ hv with h1 | h1
        · left; exact h1
        · right; left; rw [h1]; simp

/-! ## `getPercentage` -/

theorem toInt32_of_range (x : Int) (h1 : -2147483648 ≤ x) (h2 : x ≤ 2147483647) :
    toInt32 x = x := by
  unfold toInt32
  omega

/-- The body of `getPercentage` after the factor string has been chosen. -/
theorem getPercentage_eq (factorName : String) (meta : StringMap) :
    getPercentage factorName meta
      = (toInt32 (ParseInt (storedFactor factorName meta) 10 32).1,
          if ((ParseInt (storedFactor factorName meta) 10 32).1 < 0
                ∨ (ParseInt (storedFactor factorName meta) 10 32).1 > 100)
              ∧ (ParseInt (storedFactor factorName meta) 10 32).2 = none
          then some (outOfRangeError factorName)
          else (ParseInt (storedFactor factorName meta) 10 32).2) := by
  unfold getPercentage storedFactor
  cases meta with
  | none => rfl
  | some m =>
    cases h : m.lookup factorName with
    | none => simp [h]
    | some v => simp [h]

theorem storedFactor_of_lookup (factorName : String) (m : List (String × String)) (v : String)
    (h : m.lookup factorName = some v) : storedFactor factorName (some m) = v := by
  simp [storedFactor, h]

/-- What `getPercentage` returns when the stored value is a base-10 integer. -/
theorem getPercentage_of_decimal (factorName : String) (meta : StringMap) (z : Int)
    (h : decimalValue (storedFactor factorName meta) = some z) :
    getPercentage factorName meta
      = if 0 ≤ z ∧ z ≤ 100 then (z, none)
        else if -2147483648 ≤ z ∧ z ≤ 2147483647 then (z, some (outOfRangeError factorName))
        else ((if z < 0 then -2147483648 else 2147483647),
          some (GoError.numError "ParseInt" (storedFactor factorName meta) ErrRange)) := by
  rw [getPercentage_eq, ParseInt_of_decimal _ z h]
  by_cases hr : -2147483648 ≤ z ∧ z ≤ 2147483647
  · rw [if_pos hr]
    simp only [toInt32_of_range z hr.1 hr.2, and_true]
    by_cases hp : 0 ≤ z ∧ z ≤ 100
    · have hn : ¬ (z < 0 ∨ z > 100) := by omega
      rw [if_pos hp, if_neg hn]
    · have hn : z < 0 ∨ z > 100 := by omega
      rw [if_neg hp, if_pos hn, if_pos hr]
  · have hp : ¬ (0 ≤ z ∧ z ≤ 100) := by omega
    rw [if_neg hr, if_neg hp, if_neg hr]
    by_cases hz : z < 0
    · simp only [hz, if_true]
      rw [toInt32_of_range _ (by omega) (by omega)]
      simp
    · simp only [hz, if_false]
      rw [toInt32_of_range _ (by omega) (by omega)]
      simp

/-- What `getPercentage` returns when the stored value is not a base-10 integer. -/
theorem getPercentage_of_not_decimal (factorName : String) (meta : StringMap)
    (h : decimalValue (storedFactor factorName meta) = none) :
    getPercentage factorName meta
        = (0, some (GoError.numError "ParseInt" (storedFactor factorName meta) ErrSyntax))
      ∨ getPercentage factorName meta
        = (2147483647, some (GoError.numError "ParseInt" (storedFactor factorName meta) ErrRange))
      ∨ getPercentage factorName meta
        = (-2147483648, some (GoError.numError "ParseInt" (storedFactor factorName meta) ErrRange)) := by
  rw [getPercentage_eq]
  rcases ParseInt_of_not_decimal _ h with h1 | h1 | h1
  · left
    rw [h1]
    simp [toInt32_of_range 0 (by omega) (by omega)]
  · right; left
    rw [h1]
    simp [toInt32_of_range 2147483647 (by omega) (by omega)]
  · right; right
    rw [h1]
    simp [toInt32_of_range (-2147483648) (by omega) (by omega)]

/-- Claim C5: `getPercentage` returns `(n, nil)` exactly when the value stored under
the factor name (the default "100" when the map is nil or lacks the key) is a base-10
integer `n` with `0 <= n <= 100`; so a nil error comes with a threshold in [0,100]. -/
theorem getPercentage_ok_iff (factorName : String) (meta : StringMap) :
    (∀ n : Int, getPercentage factorName meta = (n, none)
        ↔ decimalValue (storedFactor factorName meta) = some n ∧ 0 ≤ n ∧ n ≤ 100)
      ∧ ((getPercentage factorName meta).2 = none
        → 0 ≤ (getPercentage factorName meta).1 ∧ (getPercentage factorName meta).1 ≤ 100) := by
  cases hd : decimalValue (storedFactor factorName meta) with
  | none =>
    have hne : (getPercentage factorName meta).2 ≠ none := by
      rcases getPercentage_of_not_decimal factorName meta hd with h | h | h <;> rw [h] <;> simp
    refine ⟨fun n => ⟨fun h => ?_, fun h => ?_⟩, fun h => absurd h hne⟩
    · exact absurd (by rw [h]) hne
    · exact absurd h.1 (by simp)
  | some z =>
    have hg := getPercentage_of_decimal factorName meta z hd
    by_cases hp : 0 ≤ z ∧ z ≤ 100
    · rw [if_pos hp] at hg
      refine ⟨fun n => ⟨fun h => ?_, fun h => ?_⟩, fun _ => ?_⟩
      · rw [hg] at h
        have hzn : z = n := congrArg Prod.fst h
        subst hzn
        exact ⟨rfl, hp.1, hp.2⟩
      · have hzn : z = n := Option.some.inj h.1
        rw [hg, hzn]
      · rw [hg]
        exact hp
    · rw [if_neg hp] at hg
      have hne : (getPercentage factorName meta).2 ≠ none := by
        rw [hg]
        split_ifs <;> simp
      refine ⟨fun n => ⟨fun h => ?_, fun h => ?_⟩, fun h => absurd h hne⟩
      · exact absurd (by rw [h]) hne
      · have hzn : z = n := Option.some.inj h.1
        rw [hzn] at hp
        exact absurd ⟨h.2.1, h.2.2⟩ hp

/-- Instance of C5: `getPercentage("scale", {"scale":"50"}) = (50, nil)`. -/
theorem getPercentage_ok_iff_witness :
    getPercentage "scale" (some [("scale", "50")]) = (50, none) :=
  ((getPercentage_ok_iff "scale" (some [("scale", "50")])).1 50).mpr
    ⟨by decide, by decide, by decide⟩

theorem getPercentage_nil_map (factorName : String) :
    getPercentage factorName none = (100, none) := by
  have h100 : ParseInt "100" 10 32 = (100, none) := by decide
  have ht : toInt32 100 = 100 := by decide
  have hs : storedFactor factorName none = "100" := rfl
  rw [getPercentage_eq, hs, h100, ht]
  simp

theorem getPercentage_missing_key (factorName : String) (m : List (String × String))
    (hm : ∀ v, (factorName, v) ∉ m) : getPercentage factorName (some m) = (100, none) := by
  have h100 : ParseInt "100" 10 32 = (100, none) := by decide
  have ht : toInt32 100 = 100 := by decide
  have hl : m.lookup factorName = none := by
    rw [List.lookup_eq_none_iff]
    intro p hp
    simp only [bne_iff_ne, ne_eq]
    intro hk
    apply hm p.2
    rw [hk]
    exact hp
  have hs : storedFactor factorName (some m) = "100" := by simp [storedFactor, hl]
  rw [getPercentage_eq, hs, h100, ht]
  simp

/-- Claim C6: `getPercentage` returns the threshold 100 with a nil error when the
metadata map is nil and when the map does not contain the factor name as a key. -/
theorem getPercentage_default (factorName : String) :
    getPercentage factorName none = (100, none)
      ∧ ∀ m : List (String × String), (∀ v, (factorName, v) ∉ m)
          → getPercentage factorName (some m) = (100, none) :=
  ⟨getPercentage_nil_map factorName, getPercentage_missing_key factorName⟩

/-- Instance of C6: the key "scale" is absent from the empty map and from a map
with another key. -/
theorem getPercentage_default_witness :
    getPercentage "scale" (some []) = (100, none)
      ∧ getPercentage "scale" (some [("other", "7")]) = (100, none) :=
  ⟨(getPercentage_default "scale").2 [] (by intro v; exact List.not_mem_nil _),
   (getPercentage_default "scale").2 [("other", "7")] (by intro v; simp)⟩

/-- Counterexample to C7 as stated: "2147483648" is a base-10 integer greater than
100, yet the error returned is the range error of the integer parser, not the
out-of-range error of `getPercentage`. -/
theorem getPercentage_beyond_32_bits :
    decimalValue "2147483648" = some 2147483648
      ∧ getPercentage "scale" (some [("scale", "2147483648")])
          = (2147483647, some (GoError.numError "ParseInt" "2147483648" ErrRange))
      ∧ GoError.numError "ParseInt" "2147483648" ErrRange ≠ outOfRangeError "scale" := by
  decide

/-- Claim C7, amended: for a stored value that is a base-10 integer `z` outside
[0,100], `getPercentage` returns `z` with the out-of-range error when `z` fits in a
signed 32-bit integer, and the range error of the integer parser (with the nearest
32-bit bound as value) when it does not. -/
theorem getPercentage_out_of_range (factorName : String) (m : List (String × String))
    (v : String) (z : Int) (hv : m.lookup factorName = some v)
    (hz : decimalValue v = some z) (hout : z < 0 ∨ 100 < z) :
    (-2147483648 ≤ z ∧ z ≤ 2147483647
        → getPercentage factorName (some m) = (z, some (outOfRangeError factorName)))
      ∧ (¬ (-2147483648 ≤ z ∧ z ≤ 2147483647)
        → getPercentage factorName (some m)
            = ((if z < 0 then -2147483648 else 2147483647),
                some (GoError.numError "ParseInt" v ErrRange))) := by
  have hs := storedFactor_of_lookup factorName m v hv
  have hg := getPercentage_of_decimal factorName (some m) z (by rw [hs]; exact hz)
  have hp : ¬ (0 ≤ z ∧ z ≤ 100) := by omega
  rw [if_neg hp, hs] at hg
  constructor
  · intro hr
    rw [hg, if_pos hr]
  · intro hr
    rw [hg, if_neg hr]

/-- Instance of the amended C7: `getPercentage("scale", {"scale":"150"})` returns the
out-of-range error. -/
theorem getPercentage_out_of_range_witness :
    getPercentage "scale" (some [("scale", "150")])
      = (150, some (GoError.errorString "scale factor not between 0 and 100")) :=
  (getPercentage_out_of_range "scale" [("scale", "150")] "150" 150 (by decide) (by decide)
    (by decide)).1 (by decide)

/-- Claim C8: when the value stored under the factor name is not a base-10 integer,
`getPercentage` returns a non-nil error which is the very error `strconv.ParseInt`
returned for that value: a `NumError` of `ParseInt` on that value, never the
out-of-range error. -/
theorem getPercentage_parse_error (factorName : String) (m : List (String × String))
    (v : String) (hv : m.lookup factorName = some v) (hz : decimalValue v = none) :
    ∃ e : GoError, (ParseInt v 10 32).2 = some e
      ∧ (getPercentage factorName (some m)).2 = some e
      ∧ e ≠ outOfRangeError factorName
      ∧ (e = GoError.numError "ParseInt" v ErrSyntax ∨ e = GoError.numError "ParseInt" v ErrRange) := by
  have hs := storedFactor_of_lookup factorName m v hv
  have hne : ∀ k, GoError.numError "ParseInt" v k ≠ outOfRangeError factorName := by
    intro k hk
    unfold outOfRangeError at hk
    exact GoError.noConfusion hk
  rw [getPercentage_eq, hs]
  rcases ParseInt_of_not_decimal v hz with h | h | h
  · exact ⟨_, by rw [h], by rw [h]; simp, hne _, Or.inl rfl⟩
  · exact ⟨_, by rw [h], by rw [h]; simp, hne _, Or.inr rfl⟩
  · exact ⟨_, by rw [h], by rw [h]; simp, hne _, Or.inr rfl⟩

/-- Instance of C8: `getPercentage("scale", {"scale":"abc"})` fails with the syntax
error of the integer parser. -/
theorem getPercentage_parse_error_witness :
    ∃ e : GoError, (ParseInt "abc" 10 32).2 = some e
      ∧ (getPercentage "scale" (some [("scale", "abc")])).2 = some e
      ∧ e ≠ outOfRangeError "scale"
      ∧ (e = GoError.numError "ParseInt" "abc" ErrSyntax
          ∨ e = GoError.numError "ParseInt" "abc" ErrRange) :=
  getPercentage_parse_error "scale" [("scale", "abc")] "abc" (by decide) (by decide)

/-- Counterexample to C9 as stated: for the unparsable value "abc" the threshold
returned is 0, with the parse error, and not 100. -/
theorem getPercentage_unparsable_not_default :
    getPercentage "scale" (some [("scale", "abc")])
        = (0, some (GoError.numError "ParseInt" "abc" ErrSyntax))
      ∧ (getPercentage "scale" (some [("scale", "abc")])).1 ≠ 100 := by
  decide

/-- On a string with a character that is not a decimal digit, exactly: the syntax
error when the digits before that character stay within `2^32 - 1`, the range error
when they exceed it. -/
theorem parseUintLoop_not_digits_exact (ds : List Char) (n : Nat) (hn : n ≤ 4294967295)
    (hnot : ¬ ∀ c ∈ ds, isDecimalDigit c) :
    parseUintLoop 10 (maxUint64 / 10 + 1) 4294967295 ds n
      = if digitsValue n (ds.takeWhile (fun c => decide (isDecimalDigit c))) ≤ 4294967295
        then (0, some ErrSyntax) else (maxUint64, some ErrRange) := by
  induction ds generalizing n with
  | nil => exact absurd (fun c hc => absurd hc (List.not_mem_nil c)) hnot
  | cons d ds ih =>
    by_cases hd : isDecimalDigit d
    · have htw : (d :: ds).takeWhile (fun c => decide (isDecimalDigit c))
          = d :: ds.takeWhile (fun c => decide (isDecimalDigit c)) := by
        simp [List.takeWhile_cons, hd]
      have e : ∀ l, digitsValue n (d :: l) = digitsValue (10 * n + (d.toNat - 48)) l :=
        fun _ => rfl
      rw [parseUintLoop_cons_digit d ds n hd hn, htw, e]
      by_cases h5 : 10 * n + (d.toNat - 48) > 4294967295
      · have hge := le_digitsValue (ds.takeWhile (fun c => decide (isDecimalDigit c)))
          (10 * n + (d.toNat - 48))
        rw [if_pos h5, if_neg (by omega)]
      · rw [if_neg h5]
        apply ih _ (by omega)
        intro hds
        apply hnot
        intro c hc
        rcases List.mem_cons.mp hc with rfl | hc
        · exact hd
        · exact hds c hc
    · have htw : (d :: ds).takeWhile (fun c => decide (isDecimalDigit c)) = [] := by
        simp [List.takeWhile_cons, hd]
      have e : digitsValue n [] = n := rfl
      rw [htw, e, if_pos hn]
      rcases digitVal_of_not_digit d hd with h | ⟨v, h, hv⟩
      · rw [parseUintLoop, h]
      · rw [parseUintLoop, h]
        simp only [ge_iff_le, hv, if_true]

theorem ParseUint_of_not_decimal_exact (s : String) (h : decimalNat s.data = none) :
    ParseUint s 10 32
      = if digitsValue 0 (s.data.takeWhile (fun c => decide (isDecimalDigit c))) ≤ 4294967295
        then (0, some ⟨"ParseUint", s, ErrSyntax⟩)
        else (maxUint64, some ⟨"ParseUint", s, ErrRange⟩) := by
  rw [ParseUint_eq]
  rcases decimalNat_eq_none _ h with hnil | hnot
  · have e : digitsValue 0 ([] : List Char) = 0 := rfl
    rw [if_pos hnil, hnil, List.takeWhile_nil, e, if_pos (by omega)]
  · have hne : s.data ≠ [] := by
      intro hnil
      apply hnot
      rw [hnil]
      intro c hc
      exact absurd hc (List.not_mem_nil c)
    rw [if_neg hne, parseUintLoop_not_digits_exact _ 0 (by omega) hnot]
    split_ifs <;> rfl

theorem parseIntSigned_of_not_decimal_exact (s0 : String) (neg : Bool) (s : String)
    (h : decimalNat s.data = none) :
    parseIntSigned s0 neg s 10 32
      = if digitsValue 0 (s.data.takeWhile (fun c => decide (isDecimalDigit c))) ≤ 4294967295
        then (0, some (GoError.numError "ParseInt" s0 ErrSyntax))
        else ((if neg = true then -2147483648 else 2147483647),
          some (GoError.numError "ParseInt" s0 ErrRange)) := by
  unfold parseIntSigned
  have hm : ¬ maxUint64 ≤ 2147483648 := by unfold maxUint64; norm_num
  have hm2 : ¬ maxUint64 ≤ 2147483647 := by unfold maxUint64; norm_num
  rw [ParseUint_of_not_decimal_exact s h]
  by_cases hl : digitsValue 0 (s.data.takeWhile (fun c => decide (isDecimalDigit c))) ≤ 4294967295
  · rw [if_pos hl, if_pos hl]
    simp [ErrSyntax_ne_ErrRange, NumError.toError]
  · rw [if_neg hl, if_neg hl]
    cases neg
    · simp [parseIntRange_pos, hm2]
    · simp [parseIntRange_neg, hm]

/-- The integer parser on a string that is not a base-10 integer, exactly: 0 with the
syntax error, or, when the leading digits overflow 32 bits, the signed 32-bit bound
on the side of the sign with the range error. -/
theorem ParseInt_of_not_decimal_exact (s : String) (h : decimalValue s = none) :
    ParseInt s 10 32
      = if leadingDigitsValue s ≤ 4294967295
        then (0, some (GoError.numError "ParseInt" s ErrSyntax))
        else ((if hasMinusSign s = true then -2147483648 else 2147483647),
          some (GoError.numError "ParseInt" s ErrRange)) := by
  unfold decimalValue at h
  unfold ParseInt leadingDigitsValue afterSign hasMinusSign
  cases hd : s.data with
  | nil =>
    have e : digitsValue 0 ([] : List Char) = 0 := rfl
    simp [NumError.toError, e]
  | cons c cs =>
    rw [hd] at h
    simp only at h ⊢
    by_cases hp : c = '+'
    · have hpm : ¬ c = '-' := by rw [hp]; decide
      rw [if_pos hp] at h
      rw [if_pos hp, if_pos (Or.inl hp)]
      have hv : decimalNat (String.mk cs).data = none := Option.map_eq_none'.mp h
      rw [parseIntSigned_of_not_decimal_exact s false _ hv]
      simp [hpm]
    · rw [if_neg hp] at h
      rw [if_neg hp]
      by_cases hm : c = '-'
      · rw [if_pos hm] at h
        rw [if_pos hm, if_pos (Or.inr hm)]
        have hv : decimalNat (String.mk cs).data = none := Option.map_eq_none'.mp h
        rw [parseIntSigned_of_not_decimal_exact s true _ hv]
        simp [hm]
      · rw [if_neg hm] at h
        have hor : ¬ (c = '+' ∨ c = '-') := by simp [hp, hm]
        have hv : decimalNat s.data = none := by rw [hd]; exact Option.map_eq_none'.mp h
        rw [if_neg hm, if_neg hor, parseIntSigned_of_not_decimal_exact s false _ hv, hd]
        simp [hm]

/-- What `getPercentage` returns, exactly, when the stored value is not a base-10
integer. -/
theorem getPercentage_of_not_decimal_exact (factorName : String) (meta : StringMap)
    (h : decimalValue (storedFactor factorName meta) = none) :
    getPercentage factorName meta
      = if leadingDigitsValue (storedFactor factorName meta) ≤ 4294967295
        then (0, some (GoError.numError "ParseInt" (storedFactor factorName meta) ErrSyntax))
        else ((if hasMinusSign (storedFactor factorName meta) = true then -2147483648
               else 2147483647),
          some (GoError.numError "ParseInt" (storedFactor factorName meta) ErrRange)) := by
  rw [getPercentage_eq, ParseInt_of_not_decimal_exact _ h]
  by_cases hl : leadingDigitsValue (storedFactor factorName meta) ≤ 4294967295
  · simp [hl, toInt32_of_range 0 (by omega) (by omega)]
  · by_cases hs : hasMinusSign (storedFactor factorName meta) = true
    · simp [hl, hs, toInt32_of_range (-2147483648) (by omega) (by omega)]
    · simp [hl, hs, toInt32_of_range 2147483647 (by omega) (by omega)]

/-- Claim C9, amended: the threshold defaults to 100 when the metadata map is nil and
when it lacks the key, and only then.  When the value stored under the key is not a
valid percentage (not a base-10 integer in [0,100]) `getPercentage` returns a non-nil
error and a threshold other than 100, namely:
* when the value is not a base-10 integer: the threshold 0 with the syntax error of
  the integer parser, or, when its leading digits already exceed `2^32 - 1`, the
  signed 32-bit bound on the side of its sign with the range error of the parser;
* when the value is a base-10 integer outside [0,100]: that integer with the
  out-of-range error when it fits in 32 bits, else the signed 32-bit bound on its
  side with the range error of the parser.
Whenever the error returned is the syntax error of the parser, the threshold is 0. -/
theorem getPercentage_invalid_value (factorName : String) (m : List (String × String))
    (v : String) (hv : m.lookup factorName = some v)
    (hbad : ¬ ∃ z : Int, decimalValue v = some z ∧ 0 ≤ z ∧ z ≤ 100) :
    getPercentage factorName none = (100, none)
      ∧ (∀ m2 : List (String × String), (∀ v2, (factorName, v2) ∉ m2)
          → getPercentage factorName (some m2) = (100, none))
      ∧ (getPercentage factorName (some m)).2 ≠ none
      ∧ (getPercentage factorName (some m)).1 ≠ 100
      ∧ ((getPercentage factorName (some m)).2 = some (GoError.numError "ParseInt" v ErrSyntax)
          → (getPercentage factorName (some m)).1 = 0)
      ∧ (decimalValue v = none → leadingDigitsValue v ≤ 4294967295
          → getPercentage factorName (some m)
              = (0, some (GoError.numError "ParseInt" v ErrSyntax)))
      ∧ (decimalValue v = none → 4294967295 < leadingDigitsValue v
          → getPercentage factorName (some m)
              = ((if hasMinusSign v = true then -2147483648 else 2147483647),
                  some (GoError.numError "ParseInt" v ErrRange)))
      ∧ (∀ z : Int, decimalValue v = some z
          → getPercentage factorName (some m)
              = if -2147483648 ≤ z ∧ z ≤ 2147483647 then (z, some (outOfRangeError factorName))
                else ((if z < 0 then -2147483648 else 2147483647),
                  some (GoError.numError "ParseInt" v ErrRange))) := by
  have hs := storedFactor_of_lookup factorName m v hv
  have hrange_ne : GoError.numError "ParseInt" v ErrRange
      ≠ GoError.numError "ParseInt" v ErrSyntax := by
    intro hk
    injection hk with _ _ h3
    exact ErrSyntax_ne_ErrRange h3.symm
  have hout_ne : outOfRangeError factorName ≠ GoError.numError "ParseInt" v ErrSyntax := by
    intro hk
    unfold outOfRangeError at hk
    exact GoError.noConfusion hk
  have hdec : ∀ z : Int, decimalValue v = some z
      → getPercentage factorName (some m)
          = if -2147483648 ≤ z ∧ z ≤ 2147483647 then (z, some (outOfRangeError factorName))
            else ((if z < 0 then -2147483648 else 2147483647),
              some (GoError.numError "ParseInt" v ErrRange)) := by
    intro z hz
    have hp : ¬ (0 ≤ z ∧ z ≤ 100) := fun hp => hbad ⟨z, hz, hp.1, hp.2⟩
    have hg := getPercentage_of_decimal factorName (some m) z (by rw [hs]; exact hz)
    rw [if_neg hp, hs] at hg
    exact hg
  have hnot : decimalValue v = none
      → getPercentage factorName (some m)
          = if leadingDigitsValue v ≤ 4294967295
            then (0, some (GoError.numError "ParseInt" v ErrSyntax))
            else ((if hasMinusSign v = true then -2147483648 else 2147483647),
              some (GoError.numError "ParseInt" v ErrRange)) := by
    intro hz
    have hg := getPercentage_of_not_decimal_exact factorName (some m) (by rw [hs]; exact hz)
    rw [hs] at hg
    exact hg
  refine ⟨getPercentage_nil_map factorName, getPercentage_missing_key factorName,
    ?_, ?_, ?_, ?_, ?_, hdec⟩
  · cases hd : decimalValue v with
    | none => rw [hnot hd]; split_ifs <;> simp
    | some z => rw [hdec z hd]; split_ifs <;> simp
  · cases hd : decimalValue v with
    | none => rw [hnot hd]; split_ifs <;> simp
    | some z =>
      have hp : ¬ (0 ≤ z ∧ z ≤ 100) := fun hp => hbad ⟨z, hd, hp.1, hp.2⟩
      rw [hdec z hd]
      split_ifs
      · simp only; omega
      · simp
      · simp
  · cases hd : decimalValue v with
    | none =>
      rw [hnot hd]
      split_ifs
      · intro _; rfl
      · intro hk; exact absurd (Option.some.inj hk) hrange_ne
      · intro hk; exact absurd (Option.some.inj hk) hrange_ne
    | some z =>
      rw [hdec z hd]
      split_ifs
      · intro hk; exact absurd (Option.some.inj hk) hout_ne
      · intro hk; exact absurd (Option.some.inj hk) hrange_ne
      · intro hk; exact absurd (Option.some.inj hk) hrange_ne
  · intro hd hl
    rw [hnot hd, if_pos hl]
  · intro hd hl
    rw [hnot hd, if_neg (by omega)]

/-- Instance of the amended C9 at values that are not base-10 integers: "12x" gives
the threshold 0 with the syntax error; "-99999999999x", whose leading digits exceed
32 bits, gives the lower 32-bit bound with the range error. -/
theorem getPercentage_invalid_value_witness :
    getPercentage "scale" (some [("scale", "12x")])
        = (0, some (GoError.numError "ParseInt" "12x" ErrSyntax))
      ∧ getPercentage "scale" (some [("scale", "-99999999999x")])
        = (-2147483648, some (GoError.numError "ParseInt" "-99999999999x" ErrRange)) :=
  ⟨(getPercentage_invalid_value "scale" [("scale", "12x")] "12x" (by decide)
      (by
        rintro ⟨z, hz, _, _⟩
        have hnone : decimalValue "12x" = none := by decide
        rw [hnone] at hz
        exact absurd hz (by simp))).2.2.2.2.2.1 (by decide) (by decide),
   (getPercentage_invalid_value "scale" [("scale", "-99999999999x")] "-99999999999x"
      (by decide)
      (by
        rintro ⟨z, hz, _, _⟩
        have hnone : decimalValue "-99999999999x" = none := by decide
        rw [hnone] at hz
        exact absurd hz (by simp))).2.2.2.2.2.2.1 (by decide) (by decide)⟩

/-! ## Status of a persistent volume claim -/

theorem persistentVolumeClaimStatus_follows_get {σ : Type} (c : PersistentVolumeClaimInterface σ)
    (name : String) (w : σ) :
    statusFollowsGet (c.Get name w) (persistentVolumeClaimStatus c name w) := by
  unfold statusFollowsGet persistentVolumeClaimStatus
  rcases hg : c.Get name w with ⟨⟨obj, _ | e⟩, w1⟩
  · by_cases hb : obj.Status.Phase = ClaimBound
    · simp [hb]
    · simp [hb]
  · simp

/-- Claim C10: for a managed and for an existing persistent-volume-claim resource,
over any remote client and remote state, `Status` makes the `Get` call on the
resource name and returns ("error", err) with the error of `Get` unchanged when it
fails, ("ready", nil) when it succeeds with phase Bound, ("not ready", nil) when it
succeeds with any other phase; no other result is possible. -/
theorem persistentVolumeClaim_Status_follows_get {σ : Type} (p : PersistentVolumeClaim σ)
    (q : ExistingPersistentVolumeClaim σ) (meta : StringMap) (w : σ) :
    statusFollowsGet (p.Client.Get p.Claim.Name w) (p.Status meta w)
      ∧ statusFollowsGet (q.Client.Get q.Name w) (q.Status meta w) :=
  ⟨persistentVolumeClaimStatus_follows_get p.Client p.Claim.Name w,
   persistentVolumeClaimStatus_follows_get q.Client q.Name w⟩

/-- Instance of C10 on the in-memory remote: the managed claim "logs" is stored with
phase Pending and is not ready; the existing claim "cache" is not stored and `Status`
returns the error of `Get`. -/
theorem persistentVolumeClaim_Status_witness :
    (PersistentVolumeClaim.Status ⟨⟨none⟩, ⟨"logs", ⟨""⟩⟩, memoryClient⟩ none sampleRemote).1
        = ("not ready", none)
      ∧ (ExistingPersistentVolumeClaim.Status ⟨⟨none⟩, "cache", memoryClient⟩ none sampleRemote).1
        = ("error", some (notFound "cache")) :=
  ⟨(persistentVolumeClaim_Status_follows_get ⟨⟨none⟩, ⟨"logs", ⟨""⟩⟩, memoryClient⟩
      ⟨⟨none⟩, "cache", memoryClient⟩ none sampleRemote).1.2.2.2.1 (by decide) (by decide),
   (persistentVolumeClaim_Status_follows_get ⟨⟨none⟩, ⟨"logs", ⟨""⟩⟩, memoryClient⟩
      ⟨⟨none⟩, "cache", memoryClient⟩ none sampleRemote).2.2.1 (notFound "cache") (by decide)⟩

/-! ## Create and Delete of a persistent volume claim -/

theorem checkExistence_eq {σ : Type} (r : RemoteResource σ) (w : σ) :
    checkExistence r w = ((r.Status none w).1.2, (r.Status none w).2) := by
  unfold checkExistence
  rcases r.Status none w with ⟨⟨st, _ | e⟩, w1⟩ <;> rfl

theorem persistentVolumeClaimStatus_error {σ : Type} (c : PersistentVolumeClaimInterface σ)
    (name : String) (w : σ) :
    (persistentVolumeClaimStatus c name w).1.2 = (c.Get name w).1.2
      ∧ (persistentVolumeClaimStatus c name w).2 = (c.Get name w).2 := by
  unfold persistentVolumeClaimStatus
  rcases c.Get name w with ⟨⟨obj, _ | e⟩, w1⟩
  · by_cases hb : obj.Status.Phase = ClaimBound <;> simp [hb]
  · simp

/-- The existence check of a managed claim is one `Get` on its name. -/
theorem checkExistence_managed {σ : Type} (p : PersistentVolumeClaim σ) (w : σ) :
    checkExistence p.asResource w
      = ((p.Client.Get p.Claim.Name w).1.2, (p.Client.Get p.Claim.Name w).2) := by
  rw [checkExistence_eq]
  exact Prod.ext (persistentVolumeClaimStatus_error p.Client p.Claim.Name w).1
    (persistentVolumeClaimStatus_error p.Client p.Claim.Name w).2

/-- The existence check of an existing claim is one `Get` on its name. -/
theorem checkExistence_existing {σ : Type} (p : ExistingPersistentVolumeClaim σ) (w : σ) :
    checkExistence p.asResource w
      = ((p.Client.Get p.Name w).1.2, (p.Client.Get p.Name w).2) := by
  rw [checkExistence_eq]
  exact Prod.ext (persistentVolumeClaimStatus_error p.Client p.Name w).1
    (persistentVolumeClaimStatus_error p.Client p.Name w).2

/-- The run of `Create` when the read finds the object. -/
theorem CreateRun_of_found {σ : Type} (p : PersistentVolumeClaim σ) (w : σ)
    (h : (p.Client.Get p.Claim.Name w).1.2 = none) :
    p.CreateRun w = ((none, p), (p.Client.Get p.Claim.Name w).2) := by
  unfold PersistentVolumeClaim.CreateRun
  rw [checkExistence_managed, h]

/-- The run of `Create` when the read fails. -/
theorem CreateRun_of_not_found {σ : Type} (p : PersistentVolumeClaim σ) (w : σ)
    (h : (p.Client.Get p.Claim.Name w).1.2 ≠ none) :
    p.CreateRun w
      = (((p.Client.Create p.Claim (p.Client.Get p.Claim.Name w).2).1.2,
          { p with Claim := (p.Client.Create p.Claim (p.Client.Get p.Claim.Name w).2).1.1 }),
         (p.Client.Create p.Claim (p.Client.Get p.Claim.Name w).2).2) := by
  unfold PersistentVolumeClaim.CreateRun
  rw [checkExistence_managed]
  cases hg : (p.Client.Get p.Claim.Name w).1.2 with
  | none => exact absurd hg h
  | some e => rfl

/-- On a recorded client, `Create` of a managed claim whose name the read finds. -/
theorem Create_recording_of_found {σ : Type} (c : PersistentVolumeClaimInterface σ)
    (base : Base) (claim : ApiClaim) (w : σ) (log : List ClientCall)
    (h : (c.Get claim.Name w).1.2 = none) :
    PersistentVolumeClaim.Create ⟨base, claim, recording c⟩ (w, log)
      = (none, ((c.Get claim.Name w).2, log ++ [ClientCall.get claim.Name])) := by
  unfold PersistentVolumeClaim.Create
  rw [CreateRun_of_found _ _ (by simpa [recording] using h)]
  simp [recording]

/-- On a recorded client, `Create` of a managed claim whose name the read does not
find. -/
theorem Create_recording_of_not_found {σ : Type} (c : PersistentVolumeClaimInterface σ)
    (base : Base) (claim : ApiClaim) (w : σ) (log : List ClientCall)
    (h : (c.Get claim.Name w).1.2 ≠ none) :
    PersistentVolumeClaim.Create ⟨base, claim, recording c⟩ (w, log)
      = ((c.Create claim (c.Get claim.Name w).2).1.2,
         ((c.Create claim (c.Get claim.Name w).2).2,
          log ++ [ClientCall.get claim.Name, ClientCall.create claim])) := by
  unfold PersistentVolumeClaim.Create
  rw [CreateRun_of_not_found _ _ (by simpa [recording] using h)]
  simp [recording]

/-- Claim C11: `Create` of a managed claim, on any client with its calls recorded,
first reads the name with `Get`.  If the read succeeds it returns nil and the record
gains that `Get` only: no create call.  Otherwise the record gains the `Get` and then
exactly one `Create` call with the local payload, made on the remote state the read
left, and `Create` returns the error result of that call. -/
theorem PersistentVolumeClaim_Create_calls {σ : Type} (c : PersistentVolumeClaimInterface σ)
    (base : Base) (claim : ApiClaim) (w : σ) (log : List ClientCall) :
    ((c.Get claim.Name w).1.2 = none →
        PersistentVolumeClaim.Create ⟨base, claim, recording c⟩ (w, log)
          = (none, ((c.Get claim.Name w).2, log ++ [ClientCall.get claim.Name])))
      ∧ ((c.Get claim.Name w).1.2 ≠ none →
        PersistentVolumeClaim.Create ⟨base, claim, recording c⟩ (w, log)
          = ((c.Create claim (c.Get claim.Name w).2).1.2,
             ((c.Create claim (c.Get claim.Name w).2).2,
              log ++ [ClientCall.get claim.Name, ClientCall.create claim]))) :=
  ⟨Create_recording_of_found c base claim w log,
   Create_recording_of_not_found c base claim w log⟩

/-- Instance of C11 on the in-memory remote: the claim "data" is stored, so `Create`
only reads; the claim "cache" is not stored, so `Create` reads and creates it. -/
theorem PersistentVolumeClaim_Create_calls_witness :
    PersistentVolumeClaim.Create ⟨⟨none⟩, ⟨"data", ⟨""⟩⟩, recording memoryClient⟩ (sampleRemote, [])
        = (none, (sampleRemote, [ClientCall.get "data"]))
      ∧ PersistentVolumeClaim.Create ⟨⟨none⟩, ⟨"cache", ⟨""⟩⟩, recording memoryClient⟩
          (sampleRemote, [])
        = (none, (sampleRemote ++ [⟨"cache", ⟨""⟩⟩],
            [ClientCall.get "cache", ClientCall.create ⟨"cache", ⟨""⟩⟩])) :=
  ⟨(PersistentVolumeClaim_Create_calls memoryClient ⟨none⟩ ⟨"data", ⟨""⟩⟩ sampleRemote []).1
      (by decide),
   (PersistentVolumeClaim_Create_calls memoryClient ⟨none⟩ ⟨"cache", ⟨""⟩⟩ sampleRemote []).2
      (by decide)⟩

/-- Claim C12, the code at a failing input: on an empty remote that assigns the phase
"Pending", `Create` of the claim "data" makes the create call and returns nil; the
server-returned object is assigned to the copy of the receiver inside the method, and
the resource on which `Create` was called still carries the payload it had, which is
not the server-returned object. -/
theorem PersistentVolumeClaim_Create_keeps_payload :
    newClaim.Create [] = (none, [⟨"data", ⟨"Pending"⟩⟩])
      ∧ (newClaim.CreateRun []).1.2.Claim = ⟨"data", ⟨"Pending"⟩⟩
      ∧ newClaim.Claim = ⟨"data", ⟨""⟩⟩
      ∧ newClaim.Claim ≠ (newClaim.CreateRun []).1.2.Claim := by
  decide

/-- Claim C13: `Create` of an existing claim, on any client with its calls recorded,
makes one `Get` on the name and no other call, so no create call.  It returns nil
when the read succeeds; when the read fails it ends in `log.Fatalf` with the message
"Resource <key> not found", the key being "persistentvolumeclaim/<name>", and does
not return nil. -/
theorem ExistingPersistentVolumeClaim_Create_calls {σ : Type}
    (c : PersistentVolumeClaimInterface σ) (base : Base) (name : String) (w : σ)
    (log : List ClientCall) :
    (ExistingPersistentVolumeClaim.Create ⟨base, name, recording c⟩ (w, log)).2
        = ((c.Get name w).2, log ++ [ClientCall.get name])
      ∧ ((c.Get name w).1.2 = none →
          (ExistingPersistentVolumeClaim.Create ⟨base, name, recording c⟩ (w, log)).1
            = Outcome.returned none)
      ∧ ((c.Get name w).1.2 ≠ none →
          (ExistingPersistentVolumeClaim.Create ⟨base, name, recording c⟩ (w, log)).1
              = Outcome.fatal ("Resource " ++ persistentVolumeClaimKey name ++ " not found")
            ∧ (ExistingPersistentVolumeClaim.Create ⟨base, name, recording c⟩ (w, log)).1
              ≠ Outcome.returned none) := by
  unfold ExistingPersistentVolumeClaim.Create createExistingResource
  rw [checkExistence_existing]
  cases hg : (c.Get name w).1.2 with
  | none => simp [hg, recording]
  | some e =>
    simp [hg, recording, ExistingPersistentVolumeClaim.asResource,
      ExistingPersistentVolumeClaim.Key]

/-- Instance of C13 on the in-memory remote: "logs" is stored and `Create` returns
nil; "cache" is not stored and `Create` ends in the fatal error; both only read. -/
theorem ExistingPersistentVolumeClaim_Create_witness :
    ExistingPersistentVolumeClaim.Create ⟨⟨none⟩, "logs", recording memoryClient⟩ (sampleRemote, [])
        = (Outcome.returned none, (sampleRemote, [ClientCall.get "logs"]))
      ∧ (ExistingPersistentVolumeClaim.Create ⟨⟨none⟩, "cache", recording memoryClient⟩
          (sampleRemote, [])).1
        = Outcome.fatal "Resource persistentvolumeclaim/cache not found" :=
  ⟨Prod.ext
      ((ExistingPersistentVolumeClaim_Create_calls memoryClient ⟨none⟩ "logs" sampleRemote []).2.1
        (by decide))
      (ExistingPersistentVolumeClaim_Create_calls memoryClient ⟨none⟩ "logs" sampleRemote []).1,
   ((ExistingPersistentVolumeClaim_Create_calls memoryClient ⟨none⟩ "cache" sampleRemote []).2.2
      (by decide)).1⟩

/-- Claim C15: `Delete`, of a managed and of an existing claim, on any client with its
calls recorded, makes exactly one call, the `Delete` of the name of the resource, on
the remote state it is given (no read before it, no second call), and returns the
result of that call unchanged. -/
theorem PersistentVolumeClaim_Delete_calls {σ : Type} (c : PersistentVolumeClaimInterface σ)
    (base : Base) (claim : ApiClaim) (name : String) (w : σ) (log : List ClientCall) :
    PersistentVolumeClaim.Delete ⟨base, claim, recording c⟩ (w, log)
        = ((c.Delete claim.Name w).1, ((c.Delete claim.Name w).2,
            log ++ [ClientCall.delete claim.Name]))
      ∧ ExistingPersistentVolumeClaim.Delete ⟨base, name, recording c⟩ (w, log)
        = ((c.Delete name w).1, ((c.Delete name w).2, log ++ [ClientCall.delete name])) :=
  ⟨rfl, rfl⟩

/-- Instance of C15 on the in-memory remote: deleting the stored claim "data" and the
claim "cache", which is not stored, is one `Delete` call each; the second returns the
error of the remote. -/
theorem PersistentVolumeClaim_Delete_witness :
    PersistentVolumeClaim.Delete ⟨⟨none⟩, ⟨"data", ⟨""⟩⟩, recording memoryClient⟩ (sampleRemote, [])
        = (none, ([⟨"logs", ⟨"Pending"⟩⟩], [ClientCall.delete "data"]))
      ∧ ExistingPersistentVolumeClaim.Delete ⟨⟨none⟩, "cache", recording memoryClient⟩
          (sampleRemote, [])
        = (some (notFound "cache"), (sampleRemote, [ClientCall.delete "cache"])) :=
  PersistentVolumeClaim_Delete_calls memoryClient ⟨none⟩ ⟨"data", ⟨""⟩⟩ "cache" sampleRemote []

/-! ## Idempotence of Create -/

theorem memoryClient_Get_state (name : String) (w : List ApiClaim) :
    (memoryClient.Get name w).2 = w := by
  unfold memoryClient
  simp only
  cases w.find? (fun c => decide (c.Name = name)) <;> rfl

theorem memoryClient_foundStaysFound : foundStaysFound memoryClient := by
  intro name w h
  rw [memoryClient_Get_state]
  exact h

theorem memoryClient_createdIsFound : createdIsFound memoryClient := by
  intro claim w h
  by_cases hany : w.any (fun d => decide (d.Name = claim.Name)) = true
  · have hc : memoryClient.Create claim w
        = ((⟨"", ⟨""⟩⟩, some (GoError.errorString
            ("persistentvolumeclaims \"" ++ claim.Name ++ "\" already exists"))), w) := by
      simp only [memoryClient, hany, if_true]
    rw [hc] at h
    exact absurd h (by simp)
  · have hc : memoryClient.Create claim w = ((claim, none), w ++ [claim]) := by
      simp only [memoryClient, hany, if_false]
      simp
    have hnone : w.find? (fun c => decide (c.Name = claim.Name)) = none := by
      rw [List.find?_eq_none]
      intro x hx hname
      exact hany (List.any_eq_true.mpr ⟨x, hx, hname⟩)
    have hfind : (w ++ [claim]).find? (fun c => decide (c.Name = claim.Name)) = some claim := by
      rw [List.find?_append, hnone]
      simp
    rw [hc]
    simp only [memoryClient, hfind]

/-- Claim C14: on a remote that behaves as a store (a successful create makes the
next read of that name succeed, a name found stays found), with the calls recorded:
when a first `Create` of a managed claim returned nil, a second `Create` of the same
resource, on the remote state the first call left, returns nil and adds one `Get` to
the record and nothing else, so no further create call. -/
theorem PersistentVolumeClaim_Create_idempotent {σ : Type}
    (c : PersistentVolumeClaimInterface σ) (hcreate : createdIsFound c)
    (hread : foundStaysFound c) (base : Base) (claim : ApiClaim) (w : σ)
    (log : List ClientCall)
    (hfirst : (PersistentVolumeClaim.Create ⟨base, claim, recording c⟩ (w, log)).1 = none) :
    (PersistentVolumeClaim.Create ⟨base, claim, recording c⟩
        (PersistentVolumeClaim.Create ⟨base, claim, recording c⟩ (w, log)).2).1 = none
      ∧ (PersistentVolumeClaim.Create ⟨base, claim, recording c⟩
          (PersistentVolumeClaim.Create ⟨base, claim, recording c⟩ (w, log)).2).2.2
        = (PersistentVolumeClaim.Create ⟨base, claim, recording c⟩ (w, log)).2.2
            ++ [ClientCall.get claim.Name] := by
  by_cases hg : (c.Get claim.Name w).1.2 = none
  · rw [Create_recording_of_found c base claim w log hg]
    rw [Create_recording_of_found c base claim _ _ (hread claim.Name w hg)]
    exact ⟨rfl, rfl⟩
  · rw [Create_recording_of_not_found c base claim w log hg] at hfirst ⊢
    rw [Create_recording_of_found c base claim _ _ (hcreate claim _ hfirst)]
    exact ⟨rfl, rfl⟩

/-- Instance of C14 on the in-memory remote, starting from a remote without the claim
"cache": the first `Create` reads and creates, the second only reads. -/
theorem PersistentVolumeClaim_Create_idempotent_witness :
    (PersistentVolumeClaim.Create ⟨⟨none⟩, ⟨"cache", ⟨""⟩⟩, recording memoryClient⟩
        (PersistentVolumeClaim.Create ⟨⟨none⟩, ⟨"cache", ⟨""⟩⟩, recording memoryClient⟩
          (sampleRemote, [])).2).1 = none
      ∧ (PersistentVolumeClaim.Create ⟨⟨none⟩, ⟨"cache", ⟨""⟩⟩, recording memoryClient⟩
          (PersistentVolumeClaim.Create ⟨⟨none⟩, ⟨"cache", ⟨""⟩⟩, recording memoryClient⟩
            (sampleRemote, [])).2).2.2
        = [ClientCall.get "cache", ClientCall.create ⟨"cache", ⟨""⟩⟩, ClientCall.get "cache"] :=
  PersistentVolumeClaim_Create_idempotent memoryClient memoryClient_createdIsFound
    memoryClient_foundStaysFound ⟨none⟩ ⟨"cache", ⟨""⟩⟩ sampleRemote [] (by decide)

/-! ## NameMatches and Key -/

/-- Claim C16: `NameMatches(def, name)` is true if and only if the definition carries
a persistent-volume-claim payload and the name of that payload equals `name`; it is
false for every definition without such a payload, whatever the name. -/
theorem PersistentVolumeClaim_NameMatches_iff {σ : Type} (p : PersistentVolumeClaim σ)
    (d : ResourceDefinition) (name : String) :
    (p.NameMatches d name = true
        ↔ ∃ claim, d.PersistentVolumeClaim = some claim ∧ claim.Name = name)
      ∧ (d.PersistentVolumeClaim = none → p.NameMatches d name = false) := by
  unfold PersistentVolumeClaim.NameMatches
  cases hd : d.PersistentVolumeClaim with
  | none => simp
  | some claim => simp

/-- Instance of C16: the definition of the claim "data" matches the name "data" and no
other name; the definition that carries only a pod named "data" does not match. -/
theorem PersistentVolumeClaim_NameMatches_witness :
    newClaim.NameMatches claimDefinition "data" = true
      ∧ newClaim.NameMatches claimDefinition "logs" = false
      ∧ newClaim.NameMatches podDefinition "data" = false :=
  ⟨((PersistentVolumeClaim_NameMatches_iff newClaim claimDefinition "data").1).mpr
      ⟨⟨"data", ⟨""⟩⟩, rfl, rfl⟩,
   by decide,
   (PersistentVolumeClaim_NameMatches_iff newClaim podDefinition "data").2 rfl⟩

/-- Claim C17: a managed claim whose payload is named `n` and an existing claim named
`n` have the same key, "persistentvolumeclaim/" followed by `n`, whatever their
clients and metadata; the part before the slash is the kind name under which the
volume-claim template is registered in `KindToResourceTemplate`. -/
theorem persistentVolumeClaim_Key_eq {σ τ : Type} (p : PersistentVolumeClaim σ)
    (q : ExistingPersistentVolumeClaim τ) (n : String) (hp : p.Claim.Name = n)
    (hq : q.Name = n) :
    p.Key = q.Key
      ∧ p.Key = "persistentvolumeclaim/" ++ n
      ∧ KindToResourceTemplate.lookup "persistentvolumeclaim"
          = some ResourceTemplate.PersistentVolumeClaim
      ∧ ∀ kind, (kind, ResourceTemplate.PersistentVolumeClaim) ∈ KindToResourceTemplate
          → p.Key = kind ++ "/" ++ n := by
  have hk : p.Key = "persistentvolumeclaim/" ++ n := by
    unfold PersistentVolumeClaim.Key persistentVolumeClaimKey
    rw [hp]
  have hk2 : q.Key = "persistentvolumeclaim/" ++ n := by
    unfold ExistingPersistentVolumeClaim.Key persistentVolumeClaimKey
    rw [hq]
  refine ⟨by rw [hk, hk2], hk, by decide, ?_⟩
  intro kind hkind
  have hkind2 : kind = "persistentvolumeclaim" := by
    simp [KindToResourceTemplate] at hkind
    exact hkind
  have happ : "persistentvolumeclaim" ++ "/" = "persistentvolumeclaim/" := by decide
  rw [hk, hkind2, happ]

/-- Instance of C17: the managed claim "data" and the existing claim "data". -/
theorem persistentVolumeClaim_Key_witness :
    PersistentVolumeClaim.Key newClaim = "persistentvolumeclaim/data"
      ∧ ExistingPersistentVolumeClaim.Key
          (⟨⟨some [("scale", "50")]⟩, "data", memoryClient⟩ :
            ExistingPersistentVolumeClaim (List ApiClaim))
        = "persistentvolumeclaim/data" :=
  ⟨(persistentVolumeClaim_Key_eq newClaim
      (⟨⟨some [("scale", "50")]⟩, "data", memoryClient⟩ :
        ExistingPersistentVolumeClaim (List ApiClaim)) "data" rfl rfl).2.1,
   (persistentVolumeClaim_Key_eq newClaim
      (⟨⟨some [("scale", "50")]⟩, "data", memoryClient⟩ :
        ExistingPersistentVolumeClaim (List ApiClaim)) "data" rfl rfl).1.symm.trans
    (persistentVolumeClaim_Key_eq newClaim
      (⟨⟨some [("scale", "50")]⟩, "data", memoryClient⟩ :
        ExistingPersistentVolumeClaim (List ApiClaim)) "data" rfl rfl).2.1⟩

/-! ## The registry of kinds -/

theorem foldl_append_key {V : Type} (m : List (String × V)) (acc : List String) :
    m.foldl (fun keys entry => keys ++ [entry.1]) acc = acc ++ m.map Prod.fst := by
  induction m generalizing acc with
  | nil => simp
  | cons e es ih =>
    rw [List.foldl_cons, ih]
    simp

theorem getKeys_eq_map {V : Type} (m : List (String × V)) : getKeys m = m.map Prod.fst := by
  unfold getKeys
  rw [foldl_append_key]
  simp

/-- Claim C18: for every map `m` (entries with distinct keys, visited in any order)
`getKeys(m)` is a duplicate-free list whose members are exactly the keys of `m`, and
visiting the entries in another order gives a rearrangement of the same list. -/
theorem getKeys_nodup_mem {V : Type} (m : List (String × V)) (hm : (m.map Prod.fst).Nodup) :
    (getKeys m).Nodup
      ∧ (∀ k, k ∈ getKeys m ↔ ∃ v, (k, v) ∈ m)
      ∧ (∀ m2 : List (String × V), m2.Perm m →
          (getKeys m2).Perm (getKeys m) ∧ (getKeys m2).Nodup
            ∧ ∀ k, k ∈ getKeys m2 ↔ ∃ v, (k, v) ∈ m) := by
  have hmem : ∀ (l : List (String × V)) (k : String), k ∈ getKeys l ↔ ∃ v, (k, v) ∈ l := by
    intro l k
    rw [getKeys_eq_map, List.mem_map]
    constructor
    · rintro ⟨⟨k2, v⟩, hin, hk⟩
      simp only at hk
      subst hk
      exact ⟨v, hin⟩
    · rintro ⟨v, hin⟩
      exact ⟨(k, v), hin, rfl⟩
  refine ⟨by rw [getKeys_eq_map]; exact hm, hmem m, ?_⟩
  intro m2 hperm
  have hp : (getKeys m2).Perm (getKeys m) := by
    rw [getKeys_eq_map, getKeys_eq_map]
    exact hperm.map Prod.fst
  refine ⟨hp, ?_, ?_⟩
  · rw [hp.nodup_iff, getKeys_eq_map]
    exact hm
  · intro k
    rw [hp.mem_iff]
    exact hmem m k

/-- Instance of C18: `Kinds` has no duplicates and its members are exactly the kind
names registered in `KindToResourceTemplate`. -/
theorem Kinds_nodup_mem :
    Kinds.Nodup ∧ (∀ k, k ∈ Kinds ↔ ∃ t, (k, t) ∈ KindToResourceTemplate) :=
  ⟨(getKeys_nodup_mem KindToResourceTemplate (by decide)).1,
   (getKeys_nodup_mem KindToResourceTemplate (by decide)).2.1⟩

/-! ## Shape and composition of the group verdict -/

theorem resourceListReady_cons_ready (r : BaseResource) (rest : List BaseResource)
    (h : r.Status none = ("ready", none)) :
    resourceListReady (r :: rest) = resourceListReady rest := by
  simp [resourceListReady, resourceListReadyRun_cons_ready _ _ h]

theorem resourceListReady_cons_error (r : BaseResource) (rest : List BaseResource)
    (s : String) (e : GoError) (h : r.Status none = (s, some e)) :
    resourceListReady (r :: rest) = ("error", some e) := by
  simp [resourceListReady, resourceListReadyRun_cons_error _ _ s e h]

theorem resourceListReady_cons_notReady (r : BaseResource) (rest : List BaseResource)
    (s : String) (h : r.Status none = (s, none)) (hs : s ≠ "ready") :
    resourceListReady (r :: rest)
      = ("not ready", some (GoError.errorString ("Resource " ++ r.Key ++ " is not ready"))) := by
  simp [resourceListReady, resourceListReadyRun_cons_notReady _ _ s h hs]

/-- The three shapes of a group result. -/
theorem resourceListReady_shape (resources : List BaseResource) :
    resourceListReady resources = ("ready", none)
      ∨ (∃ e, resourceListReady resources = ("error", some e))
      ∨ (∃ e, resourceListReady resources = ("not ready", some e)) := by
  induction resources with
  | nil => left; rfl
  | cons r rest ih =>
    rcases status_cases r with h | ⟨s, e, h⟩ | ⟨s, h, hs⟩
    · rw [resourceListReady_cons_ready r rest h]
      exact ih
    · right; left
      exact ⟨e, resourceListReady_cons_error r rest s e h⟩
    · right; right
      exact ⟨_, resourceListReady_cons_notReady r rest s h hs⟩

/-- Claim C19: the status `resourceListReady` returns is "ready", "not ready" or
"error", and the error it returns is nil if and only if that status is "ready"; a
resource that answers "ready" together with an error, after resources that answer
ready, makes the group result "error" with that error. -/
theorem resourceListReady_status_and_error (resources : List BaseResource) :
    ((resourceListReady resources).1 = "ready"
        ∨ (resourceListReady resources).1 = "not ready"
        ∨ (resourceListReady resources).1 = "error")
      ∧ ((resourceListReady resources).2 = none ↔ (resourceListReady resources).1 = "ready")
      ∧ (∀ (pre post : List BaseResource) (r : BaseResource) (e : GoError),
          resources = pre ++ r :: post → (∀ x ∈ pre, x.Status none = ("ready", none))
            → r.Status none = ("ready", some e)
            → resourceListReady resources = ("error", some e)) := by
  refine ⟨?_, ?_, ?_⟩
  · rcases resourceListReady_shape resources with h | ⟨e, h⟩ | ⟨e, h⟩ <;> rw [h] <;> simp
  · rcases resourceListReady_shape resources with h | ⟨e, h⟩ | ⟨e, h⟩ <;> rw [h] <;> simp
  · intro pre post r e hres hpre hr
    rw [hres]
    simp [resourceListReady, resourceListReadyRun_append_ready _ _ hpre,
      resourceListReadyRun_cons_error _ _ "ready" e hr]

/-- Instance of C19: the resource b answers "ready" with the error "boom". -/
theorem resourceListReady_status_and_error_witness :
    resourceListReady [stubResource "pod/a" "ready",
        ⟨"pod/b", fun _ => ("ready", some (GoError.errorString "boom"))⟩,
        stubResource "pod/c" "ready"]
      = ("error", some (GoError.errorString "boom")) :=
  (resourceListReady_status_and_error [stubResource "pod/a" "ready",
        ⟨"pod/b", fun _ => ("ready", some (GoError.errorString "boom"))⟩,
        stubResource "pod/c" "ready"]).2.2
    [stubResource "pod/a" "ready"] [stubResource "pod/c" "ready"]
    ⟨"pod/b", fun _ => ("ready", some (GoError.errorString "boom"))⟩
    (GoError.errorString "boom") rfl
    (by intro x hx; rw [List.mem_singleton] at hx; subst hx; rfl) rfl

/-- Claim C20: `resourceListReady(xs ++ ys)` equals `resourceListReady(ys)` when
`resourceListReady(xs)` is ("ready", nil), and equals `resourceListReady(xs)`
otherwise: the first failing resource decides, whatever follows it. -/
theorem resourceListReady_append (xs ys : List BaseResource) :
    resourceListReady (xs ++ ys)
      = if resourceListReady xs = ("ready", none) then resourceListReady ys
        else resourceListReady xs := by
  induction xs with
  | nil => simp [resourceListReady_nil]
  | cons r rest ih =>
    rcases status_cases r with h | ⟨s, e, h⟩ | ⟨s, h, hs⟩
    · rw [List.cons_append, resourceListReady_cons_ready r _ h,
        resourceListReady_cons_ready r rest h]
      exact ih
    · rw [List.cons_append, resourceListReady_cons_error r _ s e h,
        resourceListReady_cons_error r rest s e h]
      simp
    · rw [List.cons_append, resourceListReady_cons_notReady r _ s h hs,
        resourceListReady_cons_notReady r rest s h hs]
      simp

/-- Instance of C20: xs = [a (ready), b (not ready)], ys = [c (fails)]: the verdict of
xs ++ ys is that of xs; with xs = [a (ready)] it is that of ys. -/
theorem resourceListReady_append_witness :
    resourceListReady ([stubResource "pod/a" "ready", stubResource "pod/b" "pending"]
        ++ [failingResource "pod/c" (GoError.errorString "boom")])
        = ("not ready", some (GoError.errorString "Resource pod/b is not ready"))
      ∧ resourceListReady ([stubResource "pod/a" "ready"]
        ++ [failingResource "pod/c" (GoError.errorString "boom")])
        = ("error", some (GoError.errorString "boom")) :=
  ⟨resourceListReady_append [stubResource "pod/a" "ready", stubResource "pod/b" "pending"]
      [failingResource "pod/c" (GoError.errorString "boom")],
   resourceListReady_append [stubResource "pod/a" "ready"]
      [failingResource "pod/c" (GoError.errorString "boom")]⟩

end Resources
